import Mathlib

/-!
# `torch/detail/static.h`: the compile-time predicates of the module API

A shallow embedding of `src/torch/csrc/api/include/torch/detail/static.h`.
The header holds no run-time code: its three entities (`has_forward`,
`check_not_lvalue_references`, `is_module` with `enable_if_module_t`) are
templates that the compiler evaluates on *types*. The embedding therefore has
two layers.

* `Cpp`, `std`: the part of the C++ type system and of `<type_traits>` that the
  header relies on: types with their cv-qualifiers, class definitions with
  bases and members, member name lookup, member access, the unary `&` on a
  qualified name, and overload resolution for a call with the argument
  `nullptr`. These follow the C++ standard.
* `torch.detail`: the templates of the header, one definition each, written
  from the source lines.

Scope of the language layer. Class types are non-union classes (for the three
predicates a union behaves as a class without bases). A class is complete when
the table holds its definition and incomplete, as `class Module;` of line 11
is, when it does not. Member declarations are functions, function templates,
data members, bit-fields, nested type names and enumerators, and every class
has its injected-class-name; using-declarations, deleted functions, friend
declarations and overloaded `operator&` are outside the model. Function types
carry no cv- or ref-qualifier.
-/

namespace Cpp

/-- A C++ type. The flags `c` and `v` are the top-level `const` and `volatile`
qualifiers. Reference and function types have no qualifiers of their own; an
array type is qualified exactly as its element type is. Classes are referred to
by name. -/
inductive CppType where
  | void (c v : Bool)
  | fundamental (name : String) (c v : Bool)
  | class_ (name : String) (c v : Bool)
  | pointer (pointee : CppType) (c v : Bool)
  | memberPointer (cls : String) (pointee : CppType) (c v : Bool)
  | array (elem : CppType) (bound : Option Nat)
  | function (ret : CppType) (params : List CppType)
  | lvalueReference (referred : CppType)
  | rvalueReference (referred : CppType)
  deriving Repr

/-- The type `int`. -/
def int_ : CppType := .fundamental "int" false false

/-- The type `std::nullptr_t`, the type of the literal `nullptr`. -/
def nullptr_t : CppType := .fundamental "std::nullptr_t" false false

/-- The type `int8_t`. -/
def int8_t : CppType := .fundamental "int8_t" false false

/-- The type `int16_t`. -/
def int16_t : CppType := .fundamental "int16_t" false false

/-- The class type `std::string`. -/
def string_ : CppType := .class_ "std::string" false false

/-- The type `const T`. A qualifier applied to a reference or function type is
ignored; applied to an array type it qualifies the element type. -/
def addConst : CppType → CppType
  | .void _ v => .void true v
  | .fundamental n _ v => .fundamental n true v
  | .class_ n _ v => .class_ n true v
  | .pointer p _ v => .pointer p true v
  | .memberPointer k p _ v => .memberPointer k p true v
  | .array e b => .array (addConst e) b
  | .function r ps => .function r ps
  | .lvalueReference t => .lvalueReference t
  | .rvalueReference t => .rvalueReference t

/-- The type `volatile T`, with the same rules as `addConst`. -/
def addVolatile : CppType → CppType
  | .void c _ => .void c true
  | .fundamental n c _ => .fundamental n c true
  | .class_ n c _ => .class_ n c true
  | .pointer p c _ => .pointer p c true
  | .memberPointer k p c _ => .memberPointer k p c true
  | .array e b => .array (addVolatile e) b
  | .function r ps => .function r ps
  | .lvalueReference t => .lvalueReference t
  | .rvalueReference t => .rvalueReference t

/-- The type spelled `T&` for a type `T` named by a template parameter or a
typedef. References collapse to an lvalue reference; there is no reference to
`void`, for which the spelling denotes no type. -/
def lvalueReferenceTo : CppType → Option CppType
  | .void _ _ => none
  | .lvalueReference t => some (.lvalueReference t)
  | .rvalueReference t => some (.lvalueReference t)
  | t => some (.lvalueReference t)

/-- The type spelled `T&&`, with reference collapsing: `T&&` is `T` itself
when `T` is a reference. -/
def rvalueReferenceTo : CppType → Option CppType
  | .void _ _ => none
  | .lvalueReference t => some (.lvalueReference t)
  | .rvalueReference t => some (.rvalueReference t)
  | t => some (.rvalueReference t)

end Cpp

namespace std

open Cpp

/-- The value of `std::is_lvalue_reference<T>`. -/
def is_lvalue_reference : CppType → Bool
  | .lvalueReference _ => true
  | _ => false

/-- The value of `std::is_rvalue_reference<T>`. -/
def is_rvalue_reference : CppType → Bool
  | .rvalueReference _ => true
  | _ => false

/-- The value of `std::is_reference<T>`. -/
def is_reference (T : CppType) : Bool :=
  is_lvalue_reference T || is_rvalue_reference T

/-- The value of `std::is_pointer<T>`. -/
def is_pointer : CppType → Bool
  | .pointer _ _ _ => true
  | _ => false

/-- The value of `std::is_const<T>`: whether `T` is const-qualified at the top
level. A reference is never const-qualified. -/
def is_const : CppType → Bool
  | .void c _ => c
  | .fundamental _ c _ => c
  | .class_ _ c _ => c
  | .pointer _ c _ => c
  | .memberPointer _ _ c _ => c
  | .array e _ => is_const e
  | .function _ _ => false
  | .lvalueReference _ => false
  | .rvalueReference _ => false

/-- The value of `std::is_volatile<T>`. -/
def is_volatile : CppType → Bool
  | .void _ v => v
  | .fundamental _ _ v => v
  | .class_ _ _ v => v
  | .pointer _ _ v => v
  | .memberPointer _ _ _ v => v
  | .array e _ => is_volatile e
  | .function _ _ => false
  | .lvalueReference _ => false
  | .rvalueReference _ => false

/-- The type `std::remove_reference<T>::type`. -/
def remove_reference : CppType → CppType
  | .lvalueReference t => t
  | .rvalueReference t => t
  | t => t

/-- The type `std::remove_cv<T>::type`: the top-level qualifiers removed. -/
def remove_cv : CppType → CppType
  | .void _ _ => .void false false
  | .fundamental n _ _ => .fundamental n false false
  | .class_ n _ _ => .class_ n false false
  | .pointer p _ _ => .pointer p false false
  | .memberPointer k p _ _ => .memberPointer k p false false
  | .array e b => .array (remove_cv e) b
  | .function r ps => .function r ps
  | .lvalueReference t => .lvalueReference t
  | .rvalueReference t => .rvalueReference t

/-- The type `std::decay<T>::type`. With `U = remove_reference<T>::type`: an
array type `U` gives the pointer to its element type, a function type `U`
gives the pointer to it, and any other `U` gives `remove_cv<U>::type`. -/
def decay (T : CppType) : CppType :=
  match remove_reference T with
  | .array e _ => .pointer e false false
  | .function r ps => .pointer (.function r ps) false false
  | U => remove_cv U

/-- The member `type` of `std::enable_if<B, T>`: `T` when `B` is true; the
primary template has no member `type`. -/
def enable_if (B : Bool) (T : CppType) : Option CppType :=
  if B then some T else none

end std

namespace Cpp

/-- Access specifiers: `public`, `protected`, `private`. -/
inductive Access where
  | pub
  | prot
  | priv
  deriving DecidableEq, Repr

/-- One base-specifier of a class definition. -/
structure BaseSpecifier where
  name : String
  access : Access
  isVirtual : Bool
  deriving Repr

/-- The kinds of entity a member declaration can introduce under a name. -/
inductive MemberKind where
  | function (isStatic : Bool)
  | functionTemplate
  | data (isStatic : Bool)
  | bitField
  | typeName
  | enumerator
  deriving DecidableEq, Repr

/-- One member declaration of a class. `type` is the function type of a
function and the declared type of a data member. Two declarations of one name
in one class are two overloads. -/
structure MemberDecl where
  name : String
  kind : MemberKind
  type : CppType
  access : Access
  deriving Repr

/-- A class definition. -/
structure ClassDef where
  name : String
  bases : List BaseSpecifier
  members : List MemberDecl
  deriving Repr

/-- The class definitions visible at a point of the program, the most recent
one first. A base-specifier names a class defined earlier, that is, further
down the list. A class name without a definition in the table is an incomplete
class type, as `class Module;` of line 11 is: it has no bases and no members. -/
abbrev ClassTable := List ClassDef

/-- The definition of class `C`, if the table has one. -/
def classDef? : ClassTable → String → Option ClassDef
  | [], _ => none
  | c :: earlier, C => if c.name = C then some c else classDef? earlier C

/-- Whether class `C` is a complete type: the table holds its definition. -/
def isComplete (P : ClassTable) (C : String) : Bool :=
  (classDef? P C).isSome

/-- The unqualified name of a class: what follows the last `::` of its
qualified name. -/
def simpleName (qualified : String) : String :=
  String.mk (qualified.data.reverse.takeWhile (fun ch => ch != ':')).reverse

/-- The names that the definition of a class introduces in the scope of the
class: the injected-class-name and the names of the member declarations. -/
def ClassDef.ownMemberNames (c : ClassDef) : List String :=
  simpleName c.name :: c.members.map (fun m => m.name)

/-- The declarations that the name `f` denotes in the scope of class `c`
itself. The injected-class-name is a public member type. A type name is
hidden by a function, function template, data member or enumerator of the same
name declared in the same class, [basic.scope.hiding]. -/
def ClassDef.declarationsOf (c : ClassDef) (f : String) : List MemberDecl :=
  if ((c.members.filter (fun m => m.name == f)).filter
      (fun m => m.kind != MemberKind.typeName)).isEmpty then
    c.members.filter (fun m => m.name == f) ++
      (if simpleName c.name = f then
        [MemberDecl.mk f MemberKind.typeName (CppType.class_ c.name false false) Access.pub]
      else [])
  else (c.members.filter (fun m => m.name == f)).filter (fun m => m.kind != MemberKind.typeName)

/-- Whether `B` is a direct or indirect base class of `D`, through bases of
any access, virtual or not. -/
def derivesFrom : ClassTable → String → String → Bool
  | [], _, _ => false
  | c :: earlier, D, B =>
    if c.name = D then
      c.bases.any (fun b => b.name == B || derivesFrom earlier b.name B)
    else derivesFrom earlier D B

/-- Whether `B` is a direct or indirect base class of `D` along a path of
public base-specifiers only. -/
def derivesPubliclyFrom : ClassTable → String → String → Bool
  | [], _, _ => false
  | c :: earlier, D, B =>
    if c.name = D then
      c.bases.any (fun b =>
        b.access == Access.pub && (b.name == B || derivesPubliclyFrom earlier b.name B))
    else derivesPubliclyFrom earlier D B

end Cpp

namespace std

open Cpp

/-- The value of `std::is_base_of<Base, Derived>`, or `none` when the
instantiation is ill-formed. When both are class types the value is true if
they are the same class, cv-qualifiers ignored, or `Base` is a direct or
indirect base class of `Derived`; private, protected and ambiguous bases
count. If the two classes differ, `Derived` shall be a complete type: for an
incomplete `Derived` the program does not compile. For every other pair of
types the value is false. -/
def is_base_of (P : ClassTable) (Base Derived : CppType) : Option Bool :=
  match Base, Derived with
  | .class_ B _ _, .class_ D _ _ =>
    if B = D then some true
    else if isComplete P D then some (derivesFrom P D B)
    else none
  | _, _ => some false

end std

namespace Cpp

open std

/-- A base class subobject of a complete object, named by the path of classes
that leads to it. A virtual base class has one subobject however it is
reached, so a path restarts at a virtual base. -/
abbrev Subobject := List String

/-- The subobject for base-specifier `b` inside the subobject `s`. -/
def subobjectOfBase (s : Subobject) (b : BaseSpecifier) : Subobject :=
  if b.isVirtual then [b.name] else s ++ [b.name]

/-- The direct and indirect base class subobjects of the subobject `s`, whose
class is `C`. -/
def baseSubobjects : ClassTable → String → Subobject → List Subobject
  | [], _, _ => []
  | c :: earlier, C, s =>
    if c.name = C then
      c.bases.flatMap (fun b =>
        subobjectOfBase s b :: baseSubobjects earlier b.name (subobjectOfBase s b))
    else baseSubobjects earlier C s

/-- Whether subobject `x` is a base class subobject of subobject `y`. -/
def isBaseSubobject (P : ClassTable) (x y : Subobject) : Bool :=
  match y.getLast? with
  | some C => (baseSubobjects P C y).contains x
  | none => false

/-- The lookup set `S(f, C)` of member name lookup, [class.member.lookup]: a
declaration set and the set of subobjects in which it was found. A valid
declaration set is the set of all declarations of the name made in one class,
the `owner`; `invalid` is the declaration set of an ambiguous lookup. -/
inductive LookupSet where
  | empty
  | found (owner : String) (decls : List MemberDecl) (subobjects : List Subobject)
  | invalid (subobjects : List Subobject)
  deriving Repr

/-- The subobject set of a lookup set. -/
def LookupSet.subobjects : LookupSet → List Subobject
  | .empty => []
  | .found _ _ s => s
  | .invalid s => s

/-- Whether a lookup set is empty. -/
def LookupSet.isEmpty : LookupSet → Bool
  | .empty => true
  | _ => false

/-- Whether each subobject of `xs` is a base class subobject of at least one
subobject of `ys`. -/
def allBaseSubobjects (P : ClassTable) (xs ys : List Subobject) : Bool :=
  xs.all (fun x => ys.any (fun y => isBaseSubobject P x y))

/-- Merging the lookup set `SB` of a direct base into the lookup set `SC`
accumulated for the class, [class.member.lookup]: `SC` is kept when `SB` is
empty or hidden by it, `SB` is taken when `SC` is empty or hidden by it,
different declaration sets make the lookup ambiguous, and equal declaration
sets are shared with the union of the subobject sets. The union records every
subobject in which the declarations were found: the lookup of a member found
in two subobjects is not ambiguous, but the use of a non-static one is
ill-formed, which `addressOfMember` checks on the subobject set. This is the
rule of the standard. A compiler may deviate from it: GCC 12 reports an
ambiguity for a static member found in two subobjects when the class of one of
them has a base with a further declaration of the name, hidden by the one
found. -/
def mergeLookup (P : ClassTable) (SC SB : LookupSet) : LookupSet :=
  if SB.isEmpty || allBaseSubobjects P SB.subobjects SC.subobjects then SC
  else if SC.isEmpty || allBaseSubobjects P SC.subobjects SB.subobjects then SB
  else
    match SC, SB with
    | .found o₁ ds s₁, .found o₂ _ s₂ =>
      if o₁ = o₂ then .found o₁ ds (s₁ ++ s₂) else .invalid (s₁ ++ s₂)
    | _, _ => .invalid (SC.subobjects ++ SB.subobjects)

/-- The lookup set of the name `f` in class `C`, seen as the subobject `s`. If
the scope of `C` has declarations of `f`, the set is those declarations (a type
name hidden by another declaration of the same class left out); otherwise it
is the merge of the lookup sets of the direct bases, in declaration order. -/
def lookupSet (f : String) : ClassTable → String → Subobject → LookupSet
  | [], _, _ => .empty
  | c :: earlier, C, s =>
    if c.name = C then
      if (c.declarationsOf f).isEmpty then
        c.bases.foldl
          (fun S b => mergeLookup earlier S (lookupSet f earlier b.name (subobjectOfBase s b)))
          .empty
      else .found C (c.declarationsOf f) [s]
    else lookupSet f earlier C s

/-- Member name lookup of `f` in the scope of class `C`. -/
def lookup (P : ClassTable) (f : String) (C : String) : LookupSet :=
  lookupSet f P C [C]

/-- Whether member `m`, declared in class `owner`, is accessible when named
through class `naming` from a context that is neither a member nor a friend
of any class involved: the member is public and `owner` is `naming` itself or
is reached from it through public bases. -/
def accessibleMember (P : ClassTable) (naming owner : String) (m : MemberDecl) : Bool :=
  m.access == Access.pub && (naming == owner || derivesPubliclyFrom P naming owner)

/-- The type of `&C::m` for the single declaration `m` of class `owner`, or
`none` when the expression is ill-formed: a non-static member gives a pointer
to member of `owner`, a static member an ordinary pointer; there is no pointer
to a reference member or to a bit-field, a type or an enumerator has no
address, and a function template names no single function. -/
def addressOfDecl (owner : String) (m : MemberDecl) : Option CppType :=
  match m.kind with
  | .function false => some (.memberPointer owner m.type false false)
  | .function true => some (.pointer m.type false false)
  | .data false =>
    if is_reference m.type then none else some (.memberPointer owner m.type false false)
  | .data true => some (.pointer (remove_reference m.type) false false)
  | .functionTemplate => none
  | .bitField => none
  | .typeName => none
  | .enumerator => none

/-- Whether the entity declared by `m` is a part of each object of the class:
a non-static member function, a non-static data member or a bit-field. -/
def MemberDecl.perObject (m : MemberDecl) : Bool :=
  match m.kind with
  | .function false => true
  | .data false => true
  | .bitField => true
  | _ => false

/-- Whether all the subobjects of a subobject set are one and the same. -/
def singleSubobject : List Subobject → Bool
  | [] => true
  | s :: rest => rest.all (fun t => t == s)

/-- The type of the expression `&U::f` as the operand of `decltype`, or `none`
when it is ill-formed. `U` must be a class type (its cv-qualifiers are
ignored in a nested-name-specifier), the lookup of `f` must find exactly one
declaration, without ambiguity, that declaration must be accessible and
have an address, and a non-static member must have been found in one subobject
only: a member of a base class of which `U` has two subobjects cannot be
named through `U`. -/
def addressOfMember (P : ClassTable) (U : CppType) (f : String) : Option CppType :=
  match U with
  | .class_ C _ _ =>
    match lookup P f C with
    | .found owner [m] subs =>
      if accessibleMember P C owner m && (!m.perObject || singleSubobject subs) then
        addressOfDecl owner m
      else none
    | _ => none
  | _ => none

/-- The three ranks of implicit conversion sequence that overload resolution
compares, the best first. -/
inductive ConversionRank where
  | standard
  | userDefined
  | ellipsis
  deriving DecidableEq, Repr

/-- The position of a rank in the order; smaller is better. -/
def ConversionRank.toNat : ConversionRank → Nat
  | .standard => 0
  | .userDefined => 1
  | .ellipsis => 2

/-- A function declaration as overload resolution sees it: the parameter
types, whether the parameter list ends in an ellipsis, the return type. -/
structure FunctionDecl where
  params : List CppType
  ellipsis : Bool
  ret : CppType
  deriving Repr

/-- The implicit conversion of the argument `nullptr` to an object of type
`T`: the null pointer conversion to a pointer type, the null member pointer
conversion to a pointer-to-member type, and the identity to `std::nullptr_t`
are standard conversions; no other type modelled here is reached. -/
def nullptrConvertsTo : CppType → Option ConversionRank
  | .pointer _ _ _ => some .standard
  | .memberPointer _ _ _ _ => some .standard
  | .fundamental n _ _ => if n = "std::nullptr_t" then some .standard else none
  | _ => none

/-- The implicit conversion sequence from the argument `nullptr` to a
parameter of type `T`. A parameter of array or function type is a pointer
parameter; a reference parameter binds the prvalue when it is an rvalue
reference or an lvalue reference to non-volatile const. -/
def nullptrConversion : CppType → Option ConversionRank
  | .array _ _ => some .standard
  | .function _ _ => some .standard
  | .lvalueReference U => if is_const U && !is_volatile U then nullptrConvertsTo U else none
  | .rvalueReference U => nullptrConvertsTo U
  | T => nullptrConvertsTo T

/-- The rank of candidate `f` for a call with the single argument `nullptr`,
or `none` when `f` is not viable for it. -/
def nullptrCallRank (f : FunctionDecl) : Option ConversionRank :=
  match f.params with
  | [] => if f.ellipsis then some .ellipsis else none
  | [p] => nullptrConversion p
  | _ => none

/-- Overload resolution for a call with the single argument `nullptr` among
candidates none of which is preferred on other grounds: the viable candidate
whose conversion is better than that of every other viable candidate, or
`none` when no candidate is viable or the call is ambiguous. -/
def resolveNullptrCall (candidates : List FunctionDecl) : Option FunctionDecl :=
  let viable := candidates.filterMap (fun f => (nullptrCallRank f).map (fun r => (r.toNat, f)))
  match viable.filter (fun c => viable.all (fun d => c.1 ≤ d.1)) with
  | [best] => some best.2
  | _ => none

/-- The value of `sizeof(T)` for the fixed-width integer types. -/
def sizeof : CppType → Option Nat
  | .fundamental n _ _ =>
    if n = "int8_t" then some 1
    else if n = "int16_t" then some 2
    else if n = "int32_t" then some 4
    else if n = "int64_t" then some 8
    else none
  | _ => none

end Cpp

namespace torch.nn

/-- The name of the class `torch::nn::Module`, declared on line 11. -/
def Module : String := "torch::nn::Module"

end torch.nn

namespace torch.detail

open Cpp std

/-- The member `value` of `has_forward<T>`, lines 18-42, or `none` if the
initializer of `value` were ill-formed. `test<T>` names two function
templates. Substituting `U := T` in the first gives a function with the one
parameter `decltype(&T::forward)` and return type `yes`, and gives nothing when
`&T::forward` is ill-formed; the second is `no test(...)`. `value` compares
the size of the return type of the overload selected for `test<T>(nullptr)`
with the size of `yes`. -/
def has_forward (P : ClassTable) (T : CppType) : Option Bool :=
  let yes := int8_t
  let no := int16_t
  let detecting : List FunctionDecl :=
    match addressOfMember P T "forward" with
    | some param => [FunctionDecl.mk [param] false yes]
    | none => []
  let fallback : FunctionDecl := FunctionDecl.mk [] true no
  match resolveNullptrCall (detecting ++ [fallback]) with
  | some selected =>
    match sizeof selected.ret, sizeof yes with
    | some a, some b => some (a == b)
    | _, _ => none
  | none => none

/-- The function template `check_not_lvalue_references<Head = void, Tail...>()`
of lines 44-54, as a function of its template-argument list. The empty
argument list takes the default `Head = void` with an empty `Tail` and so
names the explicit specialization `check_not_lvalue_references<void>`, which
returns `true`; every other instantiation is the primary template. -/
def check_not_lvalue_references : List CppType → Bool
  | [] => true
  | [.void false false] => true
  | Head :: Tail =>
    (!is_lvalue_reference Head || is_const (remove_reference Head)) &&
      check_not_lvalue_references Tail

/-- The member `value` of the alias `is_module<M>`, lines 57-59, or `none`
when `is_module<M>::value` does not compile. -/
def is_module (P : ClassTable) (M : CppType) : Option Bool :=
  is_base_of P (.class_ torch.nn.Module false false) (decay M)

/-- The alias `enable_if_module_t<M, T = void>`, lines 61-63. The result is
`some (some T)` when the alias denotes the type `T`, `some none` when it has
no type (a substitution failure), and `none` when it does not compile because
`is_module<M>::value` does not. The second template argument may be
omitted. -/
def enable_if_module_t (P : ClassTable) (M : CppType) (T : Option CppType) :
    Option (Option CppType) :=
  (is_module P M).map (fun value => enable_if value (T.getD (.void false false)))

end torch.detail

/-! ## Vocabulary of the properties -/

namespace Cpp

open std

/-- A mutable lvalue reference: an lvalue-reference type whose referred-to
type is not const-qualified. -/
def MutableLvalueReference (T : CppType) : Prop :=
  ∃ U, T = .lvalueReference U ∧ is_const U = false

/-- An lvalue reference to const. -/
def ConstLvalueReference (T : CppType) : Prop :=
  ∃ U, T = .lvalueReference U ∧ is_const U = true

/-- The relation "class `D` derives from class `B`": `B` is a direct base of
`D`, or a direct base of `D` derives from `B`. The access and the virtuality of
the base-specifiers play no part. -/
inductive DerivesFrom : ClassTable → String → String → Prop where
  | direct {c : ClassDef} {earlier : ClassTable} {b : BaseSpecifier} :
      b ∈ c.bases → DerivesFrom (c :: earlier) c.name b.name
  | indirect {c : ClassDef} {earlier : ClassTable} {b : BaseSpecifier} {B : String} :
      b ∈ c.bases → DerivesFrom earlier b.name B → DerivesFrom (c :: earlier) c.name B
  | older {c : ClassDef} {earlier : ClassTable} {D B : String} :
      c.name ≠ D → DerivesFrom earlier D B → DerivesFrom (c :: earlier) D B

/-- Whether a member declaration is a method: a member function or a member
function template. -/
def MemberDecl.isMethod (m : MemberDecl) : Bool :=
  match m.kind with
  | .function _ => true
  | .functionTemplate => true
  | _ => false

/-- Whether type `T` has a method named `f`: `T` is a class type and the
lookup of `f` in it finds, without ambiguity, declarations one of which is a
method. -/
def hasMethod (P : ClassTable) (T : CppType) (f : String) : Bool :=
  match T with
  | .class_ C _ _ =>
    match lookup P f C with
    | .found _ ds _ => ds.any (fun m => m.isMethod)
    | _ => false
  | _ => false

/-- The reference- and cv-qualified spellings of a type `M`: `const M`,
`volatile M`, `const volatile M`, and `X&` and `X&&` for `X` one of `M` and
these three. A spelling that denotes no type is left out. -/
def qualifiedSpellings (M : CppType) : List CppType :=
  [addConst M, addVolatile M, addConst (addVolatile M)] ++
    [M, addConst M, addVolatile M, addConst (addVolatile M)].filterMap lvalueReferenceTo ++
    [M, addConst M, addVolatile M, addConst (addVolatile M)].filterMap rvalueReferenceTo

/-- The class type named `C`, without qualifiers. -/
@[reducible]
def classType (C : String) : CppType := .class_ C false false

/-- The function type `Tensor(Tensor)`. -/
def tensorFn : CppType := .function (classType "Tensor") [classType "Tensor"]

/-- A translation unit for the examples, the most recent definition first.
In source order:

    class Module                    (public: std::string name;)
    struct Linear : Module          (Tensor forward(Tensor);)
    struct Container : Module       ()
    struct Functor                  (Tensor forward(Tensor);)
    struct Deep : Linear            ()
    class Hidden : private Module   ()
    struct Counter                  (int forward;)
    struct Overloaded : Module      (Tensor forward(Tensor); Tensor forward(Tensor, Tensor);)
    struct StaticFn                 (static Tensor forward(Tensor);)
    struct StaticData               (static int forward;)
-/
def zoo : ClassTable := [
  ClassDef.mk "StaticData" [] [MemberDecl.mk "forward" (.data true) int_ .pub],
  ClassDef.mk "StaticFn" [] [MemberDecl.mk "forward" (.function true) tensorFn .pub],
  ClassDef.mk "Overloaded" [BaseSpecifier.mk "torch::nn::Module" .pub false]
    [MemberDecl.mk "forward" (.function false) tensorFn .pub,
     MemberDecl.mk "forward" (.function false)
       (.function (classType "Tensor") [classType "Tensor", classType "Tensor"]) .pub],
  ClassDef.mk "Counter" [] [MemberDecl.mk "forward" (.data false) int_ .pub],
  ClassDef.mk "Hidden" [BaseSpecifier.mk "torch::nn::Module" .priv false] [],
  ClassDef.mk "Deep" [BaseSpecifier.mk "Linear" .pub false] [],
  ClassDef.mk "Functor" [] [MemberDecl.mk "forward" (.function false) tensorFn .pub],
  ClassDef.mk "Container" [BaseSpecifier.mk "torch::nn::Module" .pub false] [],
  ClassDef.mk "Linear" [BaseSpecifier.mk "torch::nn::Module" .pub false]
    [MemberDecl.mk "forward" (.function false) tensorFn .pub],
  ClassDef.mk "torch::nn::Module" [] [MemberDecl.mk "name" (.data false) string_ .pub]]

end Cpp

namespace std

open Cpp

/-- The value of `std::is_function<T>`. -/
def is_function : CppType → Bool
  | .function _ _ => true
  | _ => false

/-- The value of `std::is_object<T>`: `T` is not a function, a reference or
`void`. The element type of an array type is an object type. -/
def is_object : CppType → Bool
  | .void _ _ => false
  | .fundamental _ _ _ => true
  | .class_ _ _ _ => true
  | .pointer _ _ _ => true
  | .memberPointer _ _ _ _ => true
  | .array e _ => is_object e
  | .function _ _ => false
  | .lvalueReference _ => false
  | .rvalueReference _ => false

end std

namespace Cpp

open std

/-- The class table with the member list of every class `c` replaced by
`members c`; names and base-specifiers are kept. -/
def withMembers (members : ClassDef → List MemberDecl) (P : ClassTable) : ClassTable :=
  P.map (fun c => ClassDef.mk c.name c.bases (members c))

/-- The class definition `c` with the base-specifier list `bases`. -/
def ClassDef.withBases (c : ClassDef) (bases : List BaseSpecifier) : ClassDef :=
  ClassDef.mk c.name bases c.members

/-- Whether the definition `cd` introduces the name `f` in the scope of its
class, as the name of a member declaration or as the injected-class-name. -/
def ClassDef.declares (cd : ClassDef) (f : String) : Prop :=
  f ∈ cd.ownMemberNames

/-- The function type `void()`. -/
def voidFn : CppType := .function (.void false false) []

/-- A second translation unit for the examples, the most recent definition
first. In source order:

    struct Left                     (void forward();)
    struct Right                    (void forward();)
    struct Both : Left, Right       ()
    struct Templated                (template <typename X> void forward(X);)
    struct Top                      (void forward();)
    struct Mid : virtual Top        (void forward();)
    struct Side : virtual Top       ()
    struct Bottom : Mid, Side       ()
-/
def ambiguousZoo : ClassTable := [
  ClassDef.mk "Bottom" [BaseSpecifier.mk "Mid" .pub false, BaseSpecifier.mk "Side" .pub false] [],
  ClassDef.mk "Side" [BaseSpecifier.mk "Top" .pub true] [],
  ClassDef.mk "Mid" [BaseSpecifier.mk "Top" .pub true]
    [MemberDecl.mk "forward" (.function false) voidFn .pub],
  ClassDef.mk "Top" [] [MemberDecl.mk "forward" (.function false) voidFn .pub],
  ClassDef.mk "Templated" [] [MemberDecl.mk "forward" .functionTemplate voidFn .pub],
  ClassDef.mk "Both" [BaseSpecifier.mk "Left" .pub false, BaseSpecifier.mk "Right" .pub false] [],
  ClassDef.mk "Right" [] [MemberDecl.mk "forward" (.function false) voidFn .pub],
  ClassDef.mk "Left" [] [MemberDecl.mk "forward" (.function false) voidFn .pub]]

end Cpp

namespace torch.detail

open Cpp std

/-- Whether a template-argument list of `check_not_lvalue_references` names
the explicit specialization `check_not_lvalue_references<void>` of lines 51-54
rather than the primary template: the list is `void` alone, written out or
supplied by the default argument of `Head`. -/
def namesVoidSpecialization : List CppType → Bool
  | [] => true
  | [.void false false] => true
  | _ => false

/-- The first overload of `test`, line 35, with `decltype(&U::forward)`
substituted by the type `param`: `yes test(param)`. -/
def detectingOverload (param : CppType) : FunctionDecl :=
  FunctionDecl.mk [param] false int8_t

/-- The second overload of `test`, line 37: `no test(...)`. -/
def fallbackOverload : FunctionDecl :=
  FunctionDecl.mk [] true int16_t

/-- The candidates that `test<T>` names in `has_forward<T>`: the detecting
overload when the substitution `U := T` succeeds, and the fallback. -/
def testOverloads (P : ClassTable) (T : CppType) : List FunctionDecl :=
  (match addressOfMember P T "forward" with
    | some param => [detectingOverload param]
    | none => []) ++ [fallbackOverload]

end torch.detail

/-! ## The reference safety checker -/

namespace torch.detail

open Cpp std

/-- The primary template's conjunct for one element is false exactly on a
mutable lvalue reference. -/
theorem head_conjunct_eq_false_iff (T : CppType) :
    (!is_lvalue_reference T || is_const (remove_reference T)) = false ↔
      MutableLvalueReference T := by
  unfold MutableLvalueReference
  cases T <;> simp [is_lvalue_reference, remove_reference, is_const]

/-- The recursion of the template is a conjunction over the argument list: the
explicit specialization for `void` returns what the primary template would. -/
theorem check_not_lvalue_references_eq_all (Ts : List CppType) :
    check_not_lvalue_references Ts =
      Ts.all (fun T => !is_lvalue_reference T || is_const (remove_reference T)) := by
  induction Ts with
  | nil => rfl
  | cons Head Tail ih =>
    unfold check_not_lvalue_references
    split
    · simp at *
    · rename_i h
      simp only [List.cons.injEq] at h
      obtain ⟨h1, h2⟩ := h
      subst h1 h2
      simp [is_lvalue_reference]
    · rename_i h
      simp only [List.cons.injEq] at h
      obtain ⟨h1, h2⟩ := h
      subst h1 h2
      rw [ih]
      simp

/-- The checker is true exactly when every conjunct is. -/
theorem check_not_lvalue_references_iff (Ts : List CppType) :
    check_not_lvalue_references Ts = true ↔ ∀ T ∈ Ts, ¬ MutableLvalueReference T := by
  rw [check_not_lvalue_references_eq_all, List.all_eq_true]
  constructor
  · intro h T hT hm
    have := h T hT
    rw [(head_conjunct_eq_false_iff T).mpr hm] at this
    exact Bool.false_ne_true this
  · intro h T hT
    cases hc : (!is_lvalue_reference T || is_const (remove_reference T))
    · exact absurd ((head_conjunct_eq_false_iff T).mp hc) (h T hT)
    · rfl

/-- A const lvalue reference, a pointer and a non-reference type are not
mutable lvalue references. -/
theorem not_mutable_of_replacement (T : CppType)
    (h : ConstLvalueReference T ∨ is_pointer T = true ∨ is_reference T = false) :
    ¬ MutableLvalueReference T := by
  rintro ⟨U, rfl, hU⟩
  rcases h with ⟨V, hV, hc⟩ | h | h
  · cases hV
    rw [hU] at hc
    exact Bool.false_ne_true hc
  · simp [is_pointer] at h
  · simp [is_reference, is_lvalue_reference] at h

/-- C1. For every list `Ts` of parameter types, the empty list included,
`check_not_lvalue_references<Ts...>()` is true if and only if no element of
`Ts` is a mutable lvalue reference, that is, an lvalue-reference type whose
referred-to type is not const-qualified. -/
theorem check_not_lvalue_references_true_iff_no_mutable_lvalue_reference
    (Ts : List CppType) :
    check_not_lvalue_references Ts = true ↔
      ∀ T ∈ Ts, ¬ ∃ U, T = CppType.lvalueReference U ∧ is_const U = false :=
  check_not_lvalue_references_iff Ts

/-- C6. A list of parameter types with exactly one mutable lvalue reference
`R`, at any position (`front` and `back` are the elements before and after
it, either may be empty), makes `check_not_lvalue_references` false; the list
with `R` replaced by a const lvalue reference, a pointer or a by-value
(non-reference) type `R'` makes it true. -/
theorem one_mutable_lvalue_reference_rejected_and_replacement_accepted
    (front back : List CppType) (R R' : CppType)
    (hfront : ∀ T ∈ front, ¬ MutableLvalueReference T)
    (hback : ∀ T ∈ back, ¬ MutableLvalueReference T)
    (hR : MutableLvalueReference R)
    (hR' : ConstLvalueReference R' ∨ is_pointer R' = true ∨ is_reference R' = false) :
    check_not_lvalue_references (front ++ R :: back) = false ∧
      check_not_lvalue_references (front ++ R' :: back) = true := by
  constructor
  · cases hc : check_not_lvalue_references (front ++ R :: back)
    · rfl
    · exact absurd hR ((check_not_lvalue_references_iff _).mp hc R (by simp))
  · rw [check_not_lvalue_references_iff]
    intro T hT
    rw [List.mem_append, List.mem_cons] at hT
    rcases hT with hT | rfl | hT
    · exact hfront T hT
    · exact not_mutable_of_replacement T hR'
    · exact hback T hT

/-- C6, witness: the list `int, std::string&` is rejected and the list
`int, const std::string&` is accepted. -/
theorem int_string_reference_witness :
    check_not_lvalue_references [int_, .lvalueReference string_] = false ∧
      check_not_lvalue_references [int_, .lvalueReference (addConst string_)] = true :=
  one_mutable_lvalue_reference_rejected_and_replacement_accepted [int_] []
    (.lvalueReference string_) (.lvalueReference (addConst string_))
    (by
      intro T hT
      rw [List.mem_singleton] at hT
      subst hT
      rintro ⟨U, hU, _⟩
      cases hU)
    (by intro T hT; cases hT)
    ⟨string_, rfl, rfl⟩
    (Or.inl ⟨addConst string_, rfl, rfl⟩)

end torch.detail

/-! ## The module predicate and the conditional enablement -/

namespace torch.detail

open Cpp std

/-- The function `derivesFrom` decides the relation `DerivesFrom`. -/
theorem derivesFrom_iff (P : ClassTable) (D B : String) :
    derivesFrom P D B = true ↔ DerivesFrom P D B := by
  induction P generalizing D B with
  | nil =>
    constructor
    · intro h
      simp [derivesFrom] at h
    · intro h
      cases h
  | cons c earlier ih =>
    unfold derivesFrom
    by_cases hc : c.name = D
    · rw [if_pos hc, List.any_eq_true]
      constructor
      · rintro ⟨b, hb, hor⟩
        rw [Bool.or_eq_true] at hor
        subst hc
        rcases hor with h | h
        · have hn : b.name = B := by simpa using h
          subst hn
          exact DerivesFrom.direct hb
        · exact DerivesFrom.indirect hb ((ih _ _).mp h)
      · intro h
        cases h with
        | direct hb => exact ⟨_, hb, by simp⟩
        | indirect hb hrest =>
          exact ⟨_, hb, by rw [Bool.or_eq_true]; exact Or.inr ((ih _ _).mpr hrest)⟩
        | older hne _ => exact absurd hc hne
    · rw [if_neg hc]
      constructor
      · intro h
        exact DerivesFrom.older hc ((ih _ _).mp h)
      · intro h
        cases h with
        | direct _ => exact absurd rfl hc
        | indirect _ _ => exact absurd rfl hc
        | older _ hrest => exact (ih _ _).mpr hrest

/-- The decayed type carries no top-level qualifier: when it is a class type it
is the unqualified one. -/
theorem decay_class_unqualified (M : CppType) (D : String) (c v : Bool)
    (h : decay M = .class_ D c v) : c = false ∧ v = false := by
  unfold decay at h
  generalize remove_reference M = U at h
  cases U <;> simp [remove_cv] at h
  exact ⟨h.2.1, h.2.2⟩

/-- A class that derives from another has a definition. -/
theorem isComplete_of_derivesFrom (P : ClassTable) (D B : String)
    (h : derivesFrom P D B = true) : isComplete P D = true := by
  induction P with
  | nil => simp [derivesFrom] at h
  | cons c earlier ih =>
    unfold derivesFrom at h
    unfold isComplete classDef?
    by_cases hc : c.name = D
    · rw [if_pos hc]
      rfl
    · rw [if_neg hc] at h ⊢
      exact ih h

/-- The predicate `is_module` on a type that decays to a class type. -/
theorem is_module_of_decay_class (P : ClassTable) (M : CppType) (D : String) (c v : Bool)
    (h : decay M = .class_ D c v) :
    is_module P M =
      if torch.nn.Module = D then some true
      else if isComplete P D then some (derivesFrom P D torch.nn.Module)
      else none := by
  unfold is_module is_base_of
  rw [h]

/-- The predicate `is_module` on a type that decays to a type other than a
class type. -/
theorem is_module_of_decay_not_class (P : ClassTable) (M : CppType)
    (h : ∀ D c v, decay M ≠ .class_ D c v) : is_module P M = some false := by
  unfold is_module is_base_of
  split
  · rename_i hD
    exact absurd hD (h _ _ _)
  · rfl

/-- The predicate `is_module` in terms of the decayed type. -/
theorem is_module_iff (P : ClassTable) (M : CppType) :
    is_module P M = some true ↔
      ∃ D, decay M = classType D ∧ (D = torch.nn.Module ∨ DerivesFrom P D torch.nn.Module) := by
  constructor
  · intro h
    by_cases hcl : ∃ D c v, decay M = .class_ D c v
    · obtain ⟨D, c, v, hD⟩ := hcl
      obtain ⟨hc, hv⟩ := decay_class_unqualified M D c v hD
      subst hc hv
      refine ⟨D, hD, ?_⟩
      rw [is_module_of_decay_class P M D false false hD] at h
      by_cases hm : torch.nn.Module = D
      · exact Or.inl hm.symm
      · rw [if_neg hm] at h
        by_cases hcomp : isComplete P D = true
        · rw [if_pos hcomp] at h
          exact Or.inr ((derivesFrom_iff _ _ _).mp (Option.some.inj h))
        · rw [if_neg hcomp] at h
          cases h
    · rw [is_module_of_decay_not_class P M (fun D c v hD => hcl ⟨D, c, v, hD⟩)] at h
      cases h
  · rintro ⟨D, hD, hor⟩
    rw [is_module_of_decay_class P M D false false hD]
    by_cases hm : torch.nn.Module = D
    · rw [if_pos hm]
    · rw [if_neg hm]
      rcases hor with h | h
      · exact absurd h.symm hm
      · have hd := (derivesFrom_iff _ _ _).mpr h
        rw [if_pos (isComplete_of_derivesFrom P D _ hd), hd]

/-- A class type decays to the unqualified class type. -/
theorem decay_class (D : String) (c v : Bool) : decay (.class_ D c v) = classType D := rfl

/-- Adding `const` does not change `is_module`. -/
theorem is_module_addConst (P : ClassTable) (M : CppType) :
    is_module P (addConst M) = is_module P M := by
  cases M <;> simp [is_module, decay, remove_reference, remove_cv, addConst, is_base_of]

/-- Adding `volatile` does not change `is_module`. -/
theorem is_module_addVolatile (P : ClassTable) (M : CppType) :
    is_module P (addVolatile M) = is_module P M := by
  cases M <;> simp [is_module, decay, remove_reference, remove_cv, addVolatile, is_base_of]

/-- Spelling an lvalue reference does not change `is_module`. -/
theorem is_module_lvalueReferenceTo (P : ClassTable) (M M' : CppType)
    (h : lvalueReferenceTo M = some M') : is_module P M' = is_module P M := by
  cases M <;> simp [lvalueReferenceTo] at h <;> subst h <;>
    simp [is_module, decay, remove_reference]

/-- Spelling an rvalue reference does not change `is_module`. -/
theorem is_module_rvalueReferenceTo (P : ClassTable) (M M' : CppType)
    (h : rvalueReferenceTo M = some M') : is_module P M' = is_module P M := by
  cases M <;> simp [rvalueReferenceTo] at h <;> subst h <;>
    simp [is_module, decay, remove_reference]

/-- Every reference- or cv-qualified spelling has the `is_module` of the type
it spells. -/
theorem is_module_of_mem_qualifiedSpellings (P : ClassTable) (M M' : CppType)
    (h : M' ∈ qualifiedSpellings M) : is_module P M' = is_module P M := by
  have hc := is_module_addConst P
  have hv := is_module_addVolatile P
  simp only [qualifiedSpellings, List.mem_append, List.mem_filterMap, List.mem_cons,
    List.mem_singleton, List.not_mem_nil, or_false] at h
  rcases h with (((rfl | rfl | rfl) | ⟨X, hX, hM'⟩) | ⟨X, hX, hM'⟩)
  · exact hc M
  · exact hv M
  · rw [hc, hv]
  · rw [is_module_lvalueReferenceTo P X M' hM']
    rcases hX with rfl | rfl | rfl | rfl
    · rfl
    · exact hc M
    · exact hv M
    · rw [hc, hv]
  · rw [is_module_rvalueReferenceTo P X M' hM']
    rcases hX with rfl | rfl | rfl | rfl
    · rfl
    · exact hc M
    · exact hv M
    · rw [hc, hv]

/-- C2, counterexample. `class Hidden : private Module` has `is_module` true,
although its decayed type is not `Module` and its only inheritance path to
`Module` is private. -/
theorem privately_derived_class_is_module :
    is_module zoo (classType "Hidden") = some true ∧
      ¬ (decay (classType "Hidden") = classType torch.nn.Module ∨
          ∃ D, decay (classType "Hidden") = classType D ∧
            derivesPubliclyFrom zoo D torch.nn.Module = true) := by
  refine ⟨by decide, ?_⟩
  rintro (h | ⟨D, hD, hp⟩)
  · simp [decay_class, classType, torch.nn.Module] at h
  · rw [decay_class] at hD
    have hD' : "Hidden" = D := by simpa [classType] using hD
    subst hD'
    revert hp
    decide

/-- C2, amended. `is_module<M>::value` is true if and only if the decayed type
of `M` is the class `torch::nn::Module` or a class that derives from it,
directly or indirectly, through bases of any access: public, protected or
private. -/
theorem is_module_iff_module_or_derived (P : ClassTable) (M : CppType) :
    is_module P M = some true ↔
      ∃ D, decay M = classType D ∧ (D = torch.nn.Module ∨ DerivesFrom P D torch.nn.Module) :=
  is_module_iff P M

/-- C3. `enable_if_module_t<M, T>` is the type `T` exactly when
`is_module<M>::value` is true and has no type (a substitution failure) exactly
when it is false; with `T` omitted the alias is `enable_if_module_t<M, void>`. -/
theorem enable_if_module_t_type_iff_is_module (P : ClassTable) (M T : CppType) :
    (enable_if_module_t P M (some T) = some (some T) ↔ is_module P M = some true) ∧
      (enable_if_module_t P M (some T) = some none ↔ is_module P M = some false) ∧
      enable_if_module_t P M none = enable_if_module_t P M (some (.void false false)) := by
  unfold enable_if_module_t enable_if
  cases is_module P M with
  | none => simp
  | some value => cases value <;> simp

/-- C7. Every reference- or cv-qualified spelling `M'` of a type `M` (`M&`,
`M&&`, `const M`, `volatile M`, `const M&`, `const volatile M&&` and the other
members of `qualifiedSpellings M`) has the same `is_module` as `M`; when `M` is
a class derived from `Module`, the spelling yields true. -/
theorem is_module_same_for_qualified_spellings (P : ClassTable) (M M' : CppType)
    (h : M' ∈ qualifiedSpellings M) :
    is_module P M' = is_module P M ∧
      (∀ D c v, M = .class_ D c v → DerivesFrom P D torch.nn.Module →
        is_module P M' = some true) := by
  refine ⟨is_module_of_mem_qualifiedSpellings P M M' h, ?_⟩
  intro D c v hM hD
  rw [is_module_of_mem_qualifiedSpellings P M M' h, hM, is_module_iff]
  exact ⟨D, decay_class D c v, Or.inr hD⟩

/-- C7, witness: `const volatile Deep&&` is a spelling of `Deep`, a class that
derives from `Module` through `Linear`, and `is_module` is true for it. -/
theorem is_module_const_volatile_rvalue_reference_witness :
    .rvalueReference (.class_ "Deep" true true) ∈ qualifiedSpellings (classType "Deep") ∧
      is_module zoo (.rvalueReference (.class_ "Deep" true true)) = some true :=
  have hmem : .rvalueReference (.class_ "Deep" true true) ∈
      qualifiedSpellings (classType "Deep") := by
    simp [qualifiedSpellings, classType, addConst, addVolatile, lvalueReferenceTo,
      rvalueReferenceTo]
  ⟨hmem,
    (is_module_same_for_qualified_spellings zoo (classType "Deep")
      (.rvalueReference (.class_ "Deep" true true)) hmem).2 "Deep" false false rfl
      ((derivesFrom_iff zoo "Deep" torch.nn.Module).mp (by decide))⟩

end torch.detail

/-! ## The capability detector -/

namespace torch.detail

open Cpp std

/-- The type of `&C::m` is a pointer or pointer-to-member type, to which
`nullptr` converts by a standard conversion. -/
theorem nullptrConversion_addressOfDecl (owner : String) (m : MemberDecl) (t : CppType)
    (h : addressOfDecl owner m = some t) : nullptrConversion t = some .standard := by
  unfold addressOfDecl at h
  cases hk : m.kind with
  | function st =>
    rw [hk] at h
    cases st <;> simp at h <;> subst h <;> rfl
  | data st =>
    rw [hk] at h
    cases st
    · cases hr : is_reference m.type <;> simp [hr] at h
      subst h
      rfl
    · simp at h
      subst h
      rfl
  | functionTemplate => rw [hk] at h; simp at h
  | bitField => rw [hk] at h; simp at h
  | typeName => rw [hk] at h; simp at h
  | enumerator => rw [hk] at h; simp at h

/-- The condition under which `&U::f` is formed, taken apart. -/
theorem address_condition_iff (a p q : Bool) :
    (a && (!p || q)) = true ↔ a = true ∧ (p = true → q = true) := by
  cases a <;> cases p <;> cases q <;> simp

/-- What a well-formed `&U::f` consists of. -/
theorem addressOfMember_eq_some (P : ClassTable) (U : CppType) (f : String) (t : CppType) :
    addressOfMember P U f = some t ↔
      ∃ C c v owner m subs, U = .class_ C c v ∧ lookup P f C = .found owner [m] subs ∧
        (m.perObject = true → singleSubobject subs = true) ∧
        accessibleMember P C owner m = true ∧ addressOfDecl owner m = some t := by
  constructor
  · intro h
    unfold addressOfMember at h
    split at h
    · rename_i C c v
      split at h
      · rename_i owner m subs hl
        by_cases hcond :
            (accessibleMember P C owner m && (!m.perObject || singleSubobject subs)) = true
        · rw [if_pos hcond] at h
          obtain ⟨ha, hs⟩ := (address_condition_iff _ _ _).mp hcond
          exact ⟨C, c, v, owner, m, subs, rfl, hl, hs, ha, h⟩
        · rw [if_neg hcond] at h
          cases h
      · cases h
    · cases h
  · rintro ⟨C, c, v, owner, m, subs, rfl, hl, hs, ha, hd⟩
    have hcond := (address_condition_iff _ _ _).mpr ⟨ha, hs⟩
    simp only [addressOfMember, hl]
    rw [if_pos hcond, hd]

/-- The member `value` is defined for every type and says whether
`&T::forward` is well-formed. -/
theorem has_forward_eq (P : ClassTable) (T : CppType) :
    has_forward P T = some (addressOfMember P T "forward").isSome := by
  unfold has_forward
  cases h : addressOfMember P T "forward" with
  | none =>
    simp [resolveNullptrCall, nullptrCallRank, ConversionRank.toNat, sizeof, int8_t, int16_t]
  | some t =>
    obtain ⟨C, c, v, owner, m, subs, _, _, _, _, hd⟩ := (addressOfMember_eq_some P T _ t).mp h
    have hn := nullptrConversion_addressOfDecl owner m t hd
    simp [resolveNullptrCall, nullptrCallRank, ConversionRank.toNat, sizeof, int8_t, int16_t, hn]

/-- The scope of a class has no declaration of a name exactly when the name is
neither the injected-class-name nor the name of a member declaration. -/
theorem declarationsOf_eq_nil_iff (c : ClassDef) (f : String) :
    c.declarationsOf f = [] ↔ f ∉ c.ownMemberNames := by
  unfold ClassDef.declarationsOf ClassDef.ownMemberNames
  constructor
  · intro h hmem
    split at h
    · rw [List.append_eq_nil] at h
      obtain ⟨h1, h2⟩ := h
      rw [List.mem_cons] at hmem
      rcases hmem with hs | hm
      · rw [if_pos hs.symm] at h2
        cases h2
      · rw [List.mem_map] at hm
        obtain ⟨m, hm, hmf⟩ := hm
        rw [List.filter_eq_nil_iff] at h1
        exact h1 m hm (by simpa using hmf)
    · rename_i hne
      rw [h] at hne
      exact hne rfl
  · intro h
    rw [List.mem_cons, not_or] at h
    obtain ⟨hs, hm⟩ := h
    have hfilter : c.members.filter (fun m => m.name == f) = [] := by
      rw [List.filter_eq_nil_iff]
      intro m hmem hmf
      exact hm (List.mem_map.mpr ⟨m, hmem, by simpa using hmf⟩)
    rw [hfilter]
    simp only [List.filter_nil, List.isEmpty_nil, if_true, List.nil_append]
    rw [if_neg (fun h' => hs h'.symm)]

/-- Merging two empty lookup sets gives the empty lookup set. -/
theorem mergeLookup_empty (P : ClassTable) : mergeLookup P .empty .empty = .empty := by
  simp [mergeLookup, LookupSet.isEmpty]

/-- Merging an empty base lookup set changes nothing. -/
theorem mergeLookup_empty_right (P : ClassTable) (S : LookupSet) :
    mergeLookup P S .empty = S := by
  simp [mergeLookup, LookupSet.isEmpty]

/-- Merging base lookups that are all empty leaves a lookup set as it is. -/
theorem foldl_mergeLookup_of_empty (P : ClassTable) (g : BaseSpecifier → LookupSet)
    (bases : List BaseSpecifier) (S₀ : LookupSet) (h : ∀ b ∈ bases, g b = .empty) :
    bases.foldl (fun S b => mergeLookup P S (g b)) S₀ = S₀ := by
  induction bases with
  | nil => rfl
  | cons b rest ih =>
    rw [List.foldl_cons, h b (List.mem_cons_self _ _), mergeLookup_empty_right]
    exact ih (fun b' hb' => h b' (List.mem_cons_of_mem _ hb'))

/-- Merging base lookups that are all empty gives the empty lookup set. -/
theorem foldl_mergeLookup_empty (P : ClassTable) (g : BaseSpecifier → LookupSet)
    (bases : List BaseSpecifier) (h : ∀ b ∈ bases, g b = .empty) :
    bases.foldl (fun S b => mergeLookup P S (g b)) .empty = .empty :=
  foldl_mergeLookup_of_empty P g bases .empty h

/-- A base whose lookup set is empty can be inserted anywhere among the bases
without changing the merged lookup set. -/
theorem foldl_mergeLookup_insert (P : ClassTable) (g : BaseSpecifier → LookupSet)
    (front back : List BaseSpecifier) (b : BaseSpecifier) (S₀ : LookupSet)
    (hb : g b = .empty) :
    (front ++ b :: back).foldl (fun S b => mergeLookup P S (g b)) S₀ =
      (front ++ back).foldl (fun S b => mergeLookup P S (g b)) S₀ := by
  rw [List.foldl_append, List.foldl_cons, hb, mergeLookup_empty_right, List.foldl_append]

/-- A class whose scope has declarations of `f` has them as its lookup set. -/
theorem lookupSet_of_own (f : String) (P : ClassTable) (C : String) (s : Subobject)
    (cd : ClassDef) (hdef : classDef? P C = some cd)
    (hown : (cd.declarationsOf f).isEmpty = false) :
    lookupSet f P C s = .found C (cd.declarationsOf f) [s] := by
  induction P with
  | nil => simp [classDef?] at hdef
  | cons c earlier ih =>
    unfold lookupSet
    unfold classDef? at hdef
    by_cases hc : c.name = C
    · rw [if_pos hc] at hdef ⊢
      cases hdef
      rw [hown]
      simp
    · rw [if_neg hc] at hdef ⊢
      exact ih hdef

/-- The owner of a merged lookup set is the owner of one of the two sets. -/
theorem mergeLookup_found (P : ClassTable) (SC SB : LookupSet) (o : String)
    (ds : List MemberDecl) (subs : List Subobject)
    (h : mergeLookup P SC SB = .found o ds subs) :
    (∃ s', SC = .found o ds s') ∨ (∃ s', SB = .found o ds s') := by
  unfold mergeLookup at h
  split at h
  · exact Or.inl ⟨subs, h⟩
  · split at h
    · exact Or.inr ⟨subs, h⟩
    · split at h
      · split at h
        · cases h
          exact Or.inl ⟨_, rfl⟩
        · cases h
      · cases h

/-- The owner of a merge over the direct bases is the owner of the initial
set or of the lookup set of one base. -/
theorem foldl_mergeLookup_found (P : ClassTable) (g : BaseSpecifier → LookupSet)
    (bases : List BaseSpecifier) (S₀ : LookupSet) (o : String) (ds : List MemberDecl)
    (subs : List Subobject)
    (h : bases.foldl (fun S b => mergeLookup P S (g b)) S₀ = .found o ds subs) :
    (∃ s', S₀ = .found o ds s') ∨ ∃ b ∈ bases, ∃ s', g b = .found o ds s' := by
  induction bases generalizing S₀ with
  | nil => exact Or.inl ⟨subs, h⟩
  | cons b rest ih =>
    rw [List.foldl_cons] at h
    rcases ih _ h with ⟨s', hs'⟩ | ⟨b', hb', s', hs'⟩
    · rcases mergeLookup_found P S₀ (g b) o ds s' hs' with h1 | ⟨s'', h2⟩
      · exact Or.inl h1
      · exact Or.inr ⟨b, List.mem_cons_self _ _, s'', h2⟩
    · exact Or.inr ⟨b', List.mem_cons_of_mem _ hb', s', hs'⟩

/-- A lookup that is not empty has met a class that declares the name: the
class looked in or one of its direct or indirect bases. -/
theorem lookupSet_ne_empty (f : String) (P : ClassTable) (C : String) (s : Subobject)
    (h : lookupSet f P C s ≠ .empty) :
    ∃ cd ∈ P, cd.declares f ∧ (cd.name = C ∨ derivesFrom P C cd.name = true) := by
  induction P generalizing C s with
  | nil => exact absurd rfl h
  | cons c earlier ih =>
    unfold lookupSet at h
    by_cases hc : c.name = C
    · rw [if_pos hc] at h
      by_cases hown : (c.declarationsOf f).isEmpty = true
      · rw [if_pos hown] at h
        have hex : ∃ b ∈ c.bases, lookupSet f earlier b.name (subobjectOfBase s b) ≠ .empty := by
          by_contra hno
          push_neg at hno
          exact h (foldl_mergeLookup_empty earlier _ c.bases hno)
        obtain ⟨b, hb, hne⟩ := hex
        obtain ⟨cd, hcd, hdecl, hor⟩ := ih _ _ hne
        refine ⟨cd, List.mem_cons_of_mem _ hcd, hdecl, Or.inr ?_⟩
        unfold derivesFrom
        rw [if_pos hc, List.any_eq_true]
        refine ⟨b, hb, ?_⟩
        rw [Bool.or_eq_true]
        rcases hor with h1 | h1
        · left
          simp [h1]
        · exact Or.inr h1
      · refine ⟨c, List.mem_cons_self _ _, ?_, Or.inl hc⟩
        rw [List.isEmpty_iff, declarationsOf_eq_nil_iff] at hown
        exact not_not.mp hown
    · rw [if_neg hc] at h
      obtain ⟨cd, hcd, hdecl, hor⟩ := ih _ _ h
      refine ⟨cd, List.mem_cons_of_mem _ hcd, hdecl, ?_⟩
      rcases hor with h1 | h1
      · exact Or.inl h1
      · right
        unfold derivesFrom
        rw [if_neg hc]
        exact h1

/-- The declarations that lookup finds are what the name denotes in the scope
of their owner, a class of the table. -/
theorem lookupSet_found_declares (f : String) (P : ClassTable) (C : String) (s : Subobject)
    (o : String) (ds : List MemberDecl) (subs : List Subobject)
    (h : lookupSet f P C s = .found o ds subs) :
    ∃ cd ∈ P, cd.name = o ∧ cd.declarationsOf f = ds ∧ cd.declares f := by
  induction P generalizing C s subs with
  | nil => simp [lookupSet] at h
  | cons c earlier ih =>
    unfold lookupSet at h
    by_cases hc : c.name = C
    · rw [if_pos hc] at h
      by_cases hown : (c.declarationsOf f).isEmpty = true
      · rw [if_pos hown] at h
        rcases foldl_mergeLookup_found earlier _ c.bases .empty o ds subs h with
          ⟨s', hs'⟩ | ⟨b, _, s', hs'⟩
        · cases hs'
        · obtain ⟨cd, hcd, hn, hds, hdecl⟩ := ih _ _ _ hs'
          exact ⟨cd, List.mem_cons_of_mem _ hcd, hn, hds, hdecl⟩
      · rw [if_neg hown] at h
        simp only [LookupSet.found.injEq] at h
        refine ⟨c, List.mem_cons_self _ _, hc.trans h.1, h.2.1, ?_⟩
        rw [List.isEmpty_iff, declarationsOf_eq_nil_iff] at hown
        exact not_not.mp hown
    · rw [if_neg hc] at h
      obtain ⟨cd, hcd, hn, hds, hdecl⟩ := ih _ _ _ h
      exact ⟨cd, List.mem_cons_of_mem _ hcd, hn, hds, hdecl⟩

/-- A path of public bases is a path of bases. -/
theorem derivesFrom_of_derivesPubliclyFrom (P : ClassTable) (D B : String)
    (h : derivesPubliclyFrom P D B = true) : derivesFrom P D B = true := by
  induction P generalizing D B with
  | nil => simp [derivesPubliclyFrom] at h
  | cons c earlier ih =>
    unfold derivesPubliclyFrom at h
    unfold derivesFrom
    by_cases hc : c.name = D
    · rw [if_pos hc] at h ⊢
      rw [List.any_eq_true] at h ⊢
      obtain ⟨b, hb, hand⟩ := h
      rw [Bool.and_eq_true, Bool.or_eq_true] at hand
      refine ⟨b, hb, ?_⟩
      rw [Bool.or_eq_true]
      rcases hand.2 with h1 | h1
      · exact Or.inl h1
      · exact Or.inr (ih _ _ h1)
    · rw [if_neg hc] at h ⊢
      exact ih _ _ h

/-- C5, the code at the failing inputs. `struct Counter` has the data member
`int forward;` and no method `forward()`, and `has_forward` is true for it;
`struct Overloaded` has two methods `forward`, and `has_forward` is false for
it. -/
theorem has_forward_differs_from_having_a_forward_method :
    (has_forward zoo (classType "Counter") = some true ∧
        hasMethod zoo (classType "Counter") "forward" = false) ∧
      (has_forward zoo (classType "Overloaded") = some false ∧
        hasMethod zoo (classType "Overloaded") "forward" = true) := by
  decide

end torch.detail

/-! ## The reference safety checker: safe lists, `void`, and the depth of constness -/

namespace torch.detail

open Cpp std

/-- Adding `volatile` leaves the const-qualification as it is. -/
theorem is_const_addVolatile : ∀ U : CppType, is_const (addVolatile U) = is_const U
  | .array e _ => by
    simp only [addVolatile, is_const]
    exact is_const_addVolatile e
  | .void _ _ => rfl
  | .fundamental _ _ _ => rfl
  | .class_ _ _ _ => rfl
  | .pointer _ _ _ => rfl
  | .memberPointer _ _ _ _ => rfl
  | .function _ _ => rfl
  | .lvalueReference _ => rfl
  | .rvalueReference _ => rfl

/-- Adding `volatile` to an object type gives an object type. -/
theorem is_object_addVolatile : ∀ U : CppType, is_object (addVolatile U) = is_object U
  | .array e _ => by
    simp only [addVolatile, is_object]
    exact is_object_addVolatile e
  | .void _ _ => rfl
  | .fundamental _ _ _ => rfl
  | .class_ _ _ _ => rfl
  | .pointer _ _ _ => rfl
  | .memberPointer _ _ _ _ => rfl
  | .function _ _ => rfl
  | .lvalueReference _ => rfl
  | .rvalueReference _ => rfl

/-- Adding `const` to an object type makes it const-qualified. -/
theorem is_const_addConst : ∀ U : CppType, is_object U = true → is_const (addConst U) = true
  | .array e _, h => by
    simp only [addConst, is_const]
    exact is_const_addConst e (by simpa [is_object] using h)
  | .void _ _, h => by simp [is_object] at h
  | .fundamental _ _ _, _ => rfl
  | .class_ _ _ _, _ => rfl
  | .pointer _ _ _, _ => rfl
  | .memberPointer _ _ _ _, _ => rfl
  | .function _ _, h => by simp [is_object] at h
  | .lvalueReference _, h => by simp [is_object] at h
  | .rvalueReference _, h => by simp [is_object] at h

/-- C11. Every list of parameter types whose elements are all by-value
(non-reference) types, pointer types, rvalue-reference types or lvalue
references to const makes `check_not_lvalue_references` true, and so does the
empty list. -/
theorem check_not_lvalue_references_of_safe_elements (Ts : List CppType)
    (h : ∀ T ∈ Ts, is_reference T = false ∨ is_pointer T = true ∨
      is_rvalue_reference T = true ∨ ConstLvalueReference T) :
    check_not_lvalue_references Ts = true ∧ check_not_lvalue_references [] = true := by
  refine ⟨?_, rfl⟩
  rw [check_not_lvalue_references_iff]
  rintro T hT ⟨U, rfl, hU⟩
  rcases h _ hT with h1 | h1 | h1 | ⟨V, hV, hc⟩
  · simp [is_reference, is_lvalue_reference] at h1
  · simp [is_pointer] at h1
  · simp [is_rvalue_reference] at h1
  · cases hV
    rw [hU] at hc
    exact Bool.false_ne_true hc

/-- C11, witness: the list `int, Tensor*, std::string&&, const std::string&`
is accepted. -/
theorem check_not_lvalue_references_safe_list_witness :
    check_not_lvalue_references
        [int_, .pointer (classType "Tensor") false false, .rvalueReference string_,
          .lvalueReference (addConst string_)] = true ∧
      check_not_lvalue_references [] = true :=
  check_not_lvalue_references_of_safe_elements
    [int_, .pointer (classType "Tensor") false false, .rvalueReference string_,
      .lvalueReference (addConst string_)]
    (by
      intro T hT
      simp only [List.mem_cons, List.mem_singleton, List.not_mem_nil, or_false] at hT
      rcases hT with rfl | rfl | rfl | rfl
      · exact Or.inl rfl
      · exact Or.inr (Or.inl rfl)
      · exact Or.inr (Or.inr (Or.inl rfl))
      · exact Or.inr (Or.inr (Or.inr ⟨addConst string_, rfl, rfl⟩)))

/-- C16. An explicit `void` does not end the list: for every list `Ts`,
`check_not_lvalue_references<void, Ts...>()` equals
`check_not_lvalue_references<Ts...>()`, so
`check_not_lvalue_references<void, int&>()` is false. Only the empty list and
the list of `void` alone name the explicit specialization, the base case;
`void` followed by further arguments does not, and every list that does not
is evaluated by the primary template. -/
theorem check_not_lvalue_references_void_head (Ts : List CppType) :
    check_not_lvalue_references (.void false false :: Ts) = check_not_lvalue_references Ts ∧
      check_not_lvalue_references [.void false false, .lvalueReference int_] = false ∧
      (namesVoidSpecialization Ts = true ↔ Ts = [] ∨ Ts = [.void false false]) ∧
      (Ts ≠ [] → namesVoidSpecialization (.void false false :: Ts) = false) ∧
      (∀ Head Tail, Ts = Head :: Tail → namesVoidSpecialization Ts = false →
        check_not_lvalue_references Ts =
          ((!is_lvalue_reference Head || is_const (remove_reference Head)) &&
            check_not_lvalue_references Tail)) := by
  refine ⟨?_, by decide, ?_, ?_, ?_⟩
  · rw [check_not_lvalue_references_eq_all, check_not_lvalue_references_eq_all]
    simp [is_lvalue_reference]
  · unfold namesVoidSpecialization
    split <;> simp_all
  · intro hne
    cases Ts with
    | nil => exact absurd rfl hne
    | cons T Ts' => rfl
  · intro Head Tail hTs _
    subst hTs
    rw [check_not_lvalue_references_eq_all, check_not_lvalue_references_eq_all, List.all_cons]

/-- C16, witness: the list `void, int&` does not name the specialization and
is evaluated by the primary template. -/
theorem check_not_lvalue_references_void_int_reference_witness :
    namesVoidSpecialization [.void false false, .lvalueReference int_] = false ∧
      check_not_lvalue_references [.void false false, .lvalueReference int_] =
        ((!is_lvalue_reference (.void false false) ||
            is_const (remove_reference (.void false false))) &&
          check_not_lvalue_references [.lvalueReference int_]) :=
  ⟨(check_not_lvalue_references_void_head [.lvalueReference int_]).2.2.2.1 (by simp),
    (check_not_lvalue_references_void_head
        [.void false false, .lvalueReference int_]).2.2.2.2
      (.void false false) [.lvalueReference int_] rfl rfl⟩

/-- C17, the claim read for every type `U`, at `U = const int` and at the
function type `U = void()`. The type `volatile U` of the first is
`const volatile int`, and the lvalue reference to it is accepted, not
rejected; the type `const volatile U` of the second is `void()` itself, a
function type having no cv-qualified version, and the lvalue reference to it
is rejected, not accepted. -/
theorem check_not_lvalue_references_volatile_const_int_and_function_reference :
    check_not_lvalue_references
        [.lvalueReference (addVolatile (.fundamental "int" true false))] = true ∧
      check_not_lvalue_references [.lvalueReference (addConst (addVolatile voidFn))] = false := by
  decide

/-- C17, amended. Constness is judged at the top level of the referred-to type only.
For every object type `U` that is not const-qualified, an lvalue reference to
a non-const pointer to `const U` and an lvalue reference to `volatile U` are
rejected, while an lvalue reference to a const pointer to `U` and an lvalue
reference to `const volatile U` are accepted. -/
theorem check_not_lvalue_references_top_level_const (U : CppType) (v : Bool)
    (hobj : is_object U = true) (hU : is_const U = false) :
    check_not_lvalue_references [.lvalueReference (.pointer (addConst U) false v)] = false ∧
      check_not_lvalue_references [.lvalueReference (addVolatile U)] = false ∧
      check_not_lvalue_references [.lvalueReference (.pointer U true v)] = true ∧
      check_not_lvalue_references [.lvalueReference (addConst (addVolatile U))] = true := by
  have hcv : is_const (addConst (addVolatile U)) = true :=
    is_const_addConst _ (by rw [is_object_addVolatile]; exact hobj)
  simp [check_not_lvalue_references_eq_all, is_lvalue_reference, remove_reference, is_const,
    is_const_addVolatile, hU, hcv]

/-- C17, witness: `const int*&` and `volatile int&` are rejected, `int* const&`
and `const volatile int&` are accepted. -/
theorem check_not_lvalue_references_top_level_const_witness :
    check_not_lvalue_references
        [.lvalueReference (.pointer (.fundamental "int" true false) false false)] = false ∧
      check_not_lvalue_references [.lvalueReference (.fundamental "int" false true)] = false ∧
      check_not_lvalue_references [.lvalueReference (.pointer int_ true false)] = true ∧
      check_not_lvalue_references [.lvalueReference (.fundamental "int" true true)] = true :=
  check_not_lvalue_references_top_level_const int_ false rfl rfl

end torch.detail

/-! ## The module predicate: pointers and arrays -/

namespace torch.detail

open Cpp std

/-- C18. `is_module` removes references and cv-qualifiers and applies the
array decay, never a pointer: for every class `D` derived from `Module`,
`is_module<D>::value` is true, and `is_module<D*>::value`,
`is_module<D* const&>::value` and `is_module<D[N]>::value` are false. -/
theorem is_module_false_for_pointer_and_array (P : ClassTable) (D : String) (c v : Bool)
    (N : Nat) (hD : DerivesFrom P D torch.nn.Module) :
    is_module P (.class_ D c v) = some true ∧
      is_module P (.pointer (.class_ D c v) false false) = some false ∧
      is_module P (.lvalueReference (.pointer (.class_ D c v) true false)) = some false ∧
      is_module P (.array (.class_ D c v) (some N)) = some false := by
  refine ⟨?_, rfl, rfl, rfl⟩
  rw [is_module_iff]
  exact ⟨D, decay_class D c v, Or.inr hD⟩

/-- C18, witness: `Linear` derives from `Module`; `Linear*`, `Linear* const&`
and `Linear[4]` are not module types. -/
theorem is_module_linear_pointer_witness :
    is_module zoo (classType "Linear") = some true ∧
      is_module zoo (.pointer (classType "Linear") false false) = some false ∧
      is_module zoo (.lvalueReference (.pointer (classType "Linear") true false)) = some false ∧
      is_module zoo (.array (classType "Linear") (some 4)) = some false :=
  is_module_false_for_pointer_and_array zoo "Linear" false false 4
    ((derivesFrom_iff zoo "Linear" torch.nn.Module).mp (by decide))

end torch.detail

/-! ## The capability detector: overload selection, totality, ambiguity -/

namespace torch.detail

open Cpp std

/-- The member `value` in terms of the candidates of `test<T>`. -/
theorem has_forward_eq_resolve (P : ClassTable) (T : CppType) :
    has_forward P T =
      match resolveNullptrCall (testOverloads P T) with
      | some selected =>
        match sizeof selected.ret, sizeof int8_t with
        | some a, some b => some (a == b)
        | _, _ => none
      | none => none :=
  rfl

/-- The conversion of `nullptr` to a parameter type, where there is one, is a
standard conversion. -/
theorem nullptrConversion_standard (param : CppType) (r : ConversionRank)
    (h : nullptrConversion param = some r) : r = .standard := by
  have key : ∀ U, nullptrConvertsTo U = some r → r = .standard := by
    intro U hU
    unfold nullptrConvertsTo at hU
    split at hU
    · exact (Option.some.inj hU).symm
    · exact (Option.some.inj hU).symm
    · split at hU
      · exact (Option.some.inj hU).symm
      · cases hU
    · cases hU
  unfold nullptrConversion at h
  split at h
  · exact (Option.some.inj h).symm
  · exact (Option.some.inj h).symm
  · split at h
    · exact key _ h
    · cases h
  · exact key _ h
  · exact key _ h

/-- A viable detecting overload is the best viable candidate. -/
theorem resolveNullptrCall_detecting (param : CppType)
    (h : (nullptrCallRank (detectingOverload param)).isSome = true) :
    resolveNullptrCall [detectingOverload param, fallbackOverload] =
      some (detectingOverload param) := by
  rw [Option.isSome_iff_exists] at h
  obtain ⟨r, hr⟩ := h
  have hs : r = .standard := nullptrConversion_standard param r hr
  subst hs
  have hf : nullptrCallRank fallbackOverload = some .ellipsis := rfl
  simp [resolveNullptrCall, hr, hf, ConversionRank.toNat]

/-- With the fallback alone, the fallback is selected. -/
theorem resolveNullptrCall_fallback :
    resolveNullptrCall [fallbackOverload] = some fallbackOverload := by
  have hf : nullptrCallRank fallbackOverload = some .ellipsis := rfl
  simp [resolveNullptrCall, hf, ConversionRank.toNat]

/-- The candidates of `test<T>` when `&T::forward` is well-formed. -/
theorem testOverloads_of_some (P : ClassTable) (T param : CppType)
    (h : addressOfMember P T "forward" = some param) :
    testOverloads P T = [detectingOverload param, fallbackOverload] := by
  simp [testOverloads, h]

/-- The candidates of `test<T>` when `&T::forward` is ill-formed. -/
theorem testOverloads_of_none (P : ClassTable) (T : CppType)
    (h : addressOfMember P T "forward" = none) :
    testOverloads P T = [fallbackOverload] := by
  simp [testOverloads, h]

/-- The detecting overload is viable whenever the substitution succeeds. -/
theorem nullptrCallRank_detecting_of_some (P : ClassTable) (T param : CppType)
    (h : addressOfMember P T "forward" = some param) :
    nullptrCallRank (detectingOverload param) = some .standard := by
  obtain ⟨C, c, v, owner, m, subs, _, _, _, _, hd⟩ := (addressOfMember_eq_some P T _ param).mp h
  exact nullptrConversion_addressOfDecl owner m param hd

/-- The overload selected for `test<T>(nullptr)`. -/
theorem resolveNullptrCall_testOverloads (P : ClassTable) (T : CppType) :
    resolveNullptrCall (testOverloads P T) =
      match addressOfMember P T "forward" with
      | some param => some (detectingOverload param)
      | none => some fallbackOverload := by
  cases h : addressOfMember P T "forward" with
  | none => rw [testOverloads_of_none P T h, resolveNullptrCall_fallback]
  | some param =>
    rw [testOverloads_of_some P T param h]
    exact resolveNullptrCall_detecting param
      (by rw [nullptrCallRank_detecting_of_some P T param h]; rfl)

/-- C13. Whenever the detecting overload `test(decltype(&U::forward))` is
viable for the argument `nullptr`, the call selects it over `test(...)`; it is
viable, by a standard conversion, for every type that `&T::forward` can have
(pointer to member function, pointer to data member, ordinary pointer), while
`test(...)` is reached by an ellipsis conversion; `sizeof(yes)` differs from
`sizeof(no)`; and `value` is true exactly when the detecting overload is the
one selected for `test<T>(nullptr)`. -/
theorem detecting_overload_selected_when_viable (P : ClassTable) (T : CppType) :
    (∀ param, (nullptrCallRank (detectingOverload param)).isSome = true →
        resolveNullptrCall [detectingOverload param, fallbackOverload] =
          some (detectingOverload param)) ∧
      (∀ owner m param, addressOfDecl owner m = some param →
        nullptrCallRank (detectingOverload param) = some .standard ∧
          nullptrCallRank fallbackOverload = some .ellipsis) ∧
      (∀ param, sizeof (detectingOverload param).ret ≠ sizeof fallbackOverload.ret) ∧
      (has_forward P T = some true ↔
        ∃ param, resolveNullptrCall (testOverloads P T) = some (detectingOverload param)) := by
  refine ⟨resolveNullptrCall_detecting, ?_, ?_, ?_⟩
  · intro owner m param h
    exact ⟨nullptrConversion_addressOfDecl owner m param h, rfl⟩
  · intro param
    show sizeof int8_t ≠ sizeof int16_t
    decide
  · rw [has_forward_eq, resolveNullptrCall_testOverloads]
    cases h : addressOfMember P T "forward" with
    | none =>
      simp only [Option.isSome_none, Option.some.injEq, Bool.false_eq_true, false_iff,
        not_exists]
      intro param hp
      have := congrArg FunctionDecl.params hp
      simp [fallbackOverload, detectingOverload] at this
    | some param =>
      simp only [Option.isSome_some, true_iff]
      exact ⟨param, rfl⟩

/-- C13, witness: for `Counter`, `&Counter::forward` has the type
`int Counter::*`, the detecting overload is viable and is selected. -/
theorem detecting_overload_selected_for_counter_witness :
    resolveNullptrCall
        [detectingOverload (.memberPointer "Counter" int_ false false), fallbackOverload] =
      some (detectingOverload (.memberPointer "Counter" int_ false false)) :=
  (detecting_overload_selected_when_viable zoo (classType "Counter")).1
    (.memberPointer "Counter" int_ false false) rfl

end torch.detail

/-! ## Independence of the capability detector and the module predicate -/

namespace torch.detail

open Cpp std

/-- The inheritance relation does not look at members. -/
theorem derivesFrom_withMembers (members : ClassDef → List MemberDecl) (P : ClassTable)
    (D B : String) : derivesFrom (withMembers members P) D B = derivesFrom P D B := by
  induction P generalizing D B with
  | nil => rfl
  | cons c earlier ih =>
    have ih' : ∀ D B, derivesFrom (List.map (fun c => ClassDef.mk c.name c.bases (members c))
        earlier) D B = derivesFrom earlier D B := ih
    simp only [withMembers, List.map_cons, derivesFrom, ih']

/-- Whether a class is defined does not depend on the members. -/
theorem isComplete_withMembers (members : ClassDef → List MemberDecl) (P : ClassTable)
    (C : String) : isComplete (withMembers members P) C = isComplete P C := by
  induction P with
  | nil => rfl
  | cons c earlier ih =>
    have ih' : (classDef? (List.map (fun c => ClassDef.mk c.name c.bases (members c))
        earlier) C).isSome = (classDef? earlier C).isSome := ih
    simp only [isComplete, withMembers, List.map_cons, classDef?]
    by_cases hc : c.name = C
    · rw [if_pos hc, if_pos hc]
      rfl
    · rw [if_neg hc, if_neg hc]
      exact ih'

/-- The module predicate does not look at members. -/
theorem is_module_withMembers (members : ClassDef → List MemberDecl) (P : ClassTable)
    (M : CppType) : is_module (withMembers members P) M = is_module P M := by
  unfold is_module is_base_of
  split <;> simp [derivesFrom_withMembers, isComplete_withMembers]

/-- Inserting among the bases of the most recent class a base-specifier whose
class neither is nor derives from a class that declares `f` changes neither
the lookup of `f` in that class nor the access to what the lookup finds. -/
theorem addressOfMember_insert_base (earlier : ClassTable) (n : String)
    (members : List MemberDecl) (front back : List BaseSpecifier) (b : BaseSpecifier)
    (cq vq : Bool) (f : String)
    (hfree : ∀ cd ∈ earlier, cd.declares f →
      b.name ≠ cd.name ∧ derivesFrom earlier b.name cd.name = false) :
    addressOfMember (ClassDef.mk n (front ++ b :: back) members :: earlier)
        (.class_ n cq vq) f =
      addressOfMember (ClassDef.mk n (front ++ back) members :: earlier) (.class_ n cq vq) f := by
  have hempty : ∀ s, lookupSet f earlier b.name s = .empty := by
    intro s
    by_contra hne
    obtain ⟨cd, hcd, hdecl, hor⟩ := lookupSet_ne_empty f earlier b.name s hne
    obtain ⟨h1, h2⟩ := hfree cd hcd hdecl
    rcases hor with h | h
    · exact h1 h.symm
    · rw [h2] at h
      exact Bool.false_ne_true h
  have hlookup : lookup (ClassDef.mk n (front ++ b :: back) members :: earlier) f n =
      lookup (ClassDef.mk n (front ++ back) members :: earlier) f n := by
    have hdecls : (ClassDef.mk n (front ++ b :: back) members).declarationsOf f =
        (ClassDef.mk n (front ++ back) members).declarationsOf f := rfl
    unfold lookup lookupSet
    simp only [if_true]
    rw [hdecls]
    by_cases hown : ((ClassDef.mk n (front ++ back) members).declarationsOf f).isEmpty = true
    · rw [if_pos hown, if_pos hown]
      exact foldl_mergeLookup_insert earlier
        (fun b' => lookupSet f earlier b'.name (subobjectOfBase [n] b')) front back b .empty
        (hempty _)
    · rw [if_neg hown, if_neg hown]
  unfold addressOfMember
  simp only [hlookup]
  cases hL : lookup (ClassDef.mk n (front ++ back) members :: earlier) f n with
  | empty => rfl
  | invalid subs => rfl
  | found owner ds subs =>
    match ds with
    | [] => rfl
    | _ :: _ :: _ => rfl
    | [m] =>
      have hacc : accessibleMember (ClassDef.mk n (front ++ b :: back) members :: earlier)
          n owner m =
          accessibleMember (ClassDef.mk n (front ++ back) members :: earlier) n owner m := by
        by_cases hno : n = owner
        · simp [accessibleMember, hno]
        · have hfound : ∃ cd ∈ earlier, cd.name = owner ∧ cd.declares f := by
            unfold lookup lookupSet at hL
            simp only [if_true] at hL
            by_cases hown :
                ((ClassDef.mk n (front ++ back) members).declarationsOf f).isEmpty = true
            · rw [if_pos hown] at hL
              rcases foldl_mergeLookup_found earlier _ (front ++ back) .empty owner [m] subs hL
                with ⟨s', hs'⟩ | ⟨b', _, s', hs'⟩
              · cases hs'
              · obtain ⟨cd, hcd, hname, _, hdecl⟩ :=
                  lookupSet_found_declares f earlier _ _ owner [m] s' hs'
                exact ⟨cd, hcd, hname, hdecl⟩
            · rw [if_neg hown] at hL
              simp only [LookupSet.found.injEq] at hL
              exact absurd hL.1 hno
          obtain ⟨cd, hcd, hname, hdecl⟩ := hfound
          obtain ⟨h1, h2⟩ := hfree cd hcd hdecl
          rw [hname] at h1 h2
          have h3 : derivesPubliclyFrom earlier b.name owner = false := by
            cases hp : derivesPubliclyFrom earlier b.name owner
            · rfl
            · rw [derivesFrom_of_derivesPubliclyFrom _ _ _ hp] at h2
              exact absurd h2 Bool.noConfusion
          have h4 : (b.name == owner) = false := by simpa using h1
          simp [accessibleMember, derivesPubliclyFrom, List.any_append, h3, h4]
      simp only [hacc]

/-- C12. `has_forward` and `is_module` are independent. In the example
translation unit, for `Linear` (derives from `Module`, has `forward`),
`Container` (derives from `Module`, no `forward`) and `Functor` (unrelated,
has `forward`): `has_forward` is true, false, true and `is_module` is true,
true, false; every pair of answers occurs. In general `is_module<T>` is the
same whatever the members of the classes are, and `has_forward<T>` is the same
whether or not `Module` is among the bases of `T`, `Module` neither being nor
deriving from a class that declares `forward`. -/
theorem has_forward_and_is_module_independent :
    (has_forward zoo (classType "Linear") = some true ∧
        has_forward zoo (classType "Container") = some false ∧
        has_forward zoo (classType "Functor") = some true ∧
        is_module zoo (classType "Linear") = some true ∧
        is_module zoo (classType "Container") = some true ∧
        is_module zoo (classType "Functor") = some false) ∧
      (∀ b₁ b₂ : Bool, ∃ T, has_forward zoo T = some b₁ ∧ is_module zoo T = some b₂) ∧
      (∀ (P : ClassTable) (members : ClassDef → List MemberDecl) (M : CppType),
        is_module (withMembers members P) M = is_module P M) ∧
      (∀ (earlier : ClassTable) (n : String) (members : List MemberDecl)
          (front back : List BaseSpecifier) (access : Access) (isVirtual cq vq : Bool),
        (∀ cd ∈ earlier, cd.declares "forward" →
          torch.nn.Module ≠ cd.name ∧ derivesFrom earlier torch.nn.Module cd.name = false) →
        has_forward
            (ClassDef.mk n (front ++ BaseSpecifier.mk torch.nn.Module access isVirtual :: back)
              members :: earlier) (.class_ n cq vq) =
          has_forward (ClassDef.mk n (front ++ back) members :: earlier) (.class_ n cq vq)) := by
  refine ⟨by decide, ?_, ?_, ?_⟩
  · intro b₁ b₂
    cases b₁ <;> cases b₂
    · exact ⟨int_, by decide⟩
    · exact ⟨classType "Container", by decide⟩
    · exact ⟨classType "Functor", by decide⟩
    · exact ⟨classType "Linear", by decide⟩
  · intro P members M
    exact is_module_withMembers members P M
  · intro earlier n members front back access isVirtual cq vq hfree
    rw [has_forward_eq, has_forward_eq,
      addressOfMember_insert_base earlier n members front back
        (BaseSpecifier.mk torch.nn.Module access isVirtual) cq vq "forward" hfree]

/-- C12, witness: in the example translation unit no class that declares
`forward` is `Module` or a base of it, so `struct Wrapper : Functor, Module`
has the `has_forward` of `struct Wrapper : Functor`. -/
theorem has_forward_same_with_module_base_witness :
    has_forward
        (ClassDef.mk "Wrapper"
          [BaseSpecifier.mk "Functor" .pub false, BaseSpecifier.mk torch.nn.Module .pub false]
          [] :: zoo) (classType "Wrapper") =
      has_forward (ClassDef.mk "Wrapper" [BaseSpecifier.mk "Functor" .pub false] [] :: zoo)
        (classType "Wrapper") :=
  has_forward_and_is_module_independent.2.2.2 zoo "Wrapper" []
    [BaseSpecifier.mk "Functor" .pub false] [] .pub false false false
    (by
      intro cd hcd hdecl
      simp only [zoo, List.mem_cons, List.mem_singleton, List.not_mem_nil, or_false] at hcd
      rcases hcd with rfl | rfl | rfl | rfl | rfl | rfl | rfl | rfl | rfl | rfl
      all_goals first
        | exact ⟨by decide, by decide⟩
        | (exfalso; revert hdecl; unfold ClassDef.declares; decide))

end torch.detail

/-! ## Ambiguity between two direct bases -/

namespace torch.detail

open Cpp std

/-- A class with a base class subobject has a definition. -/
theorem defined_of_mem_baseSubobjects (P : ClassTable) (C : String) (s x : Subobject)
    (h : x ∈ baseSubobjects P C s) : ∃ cd ∈ P, cd.name = C := by
  induction P with
  | nil => simp [baseSubobjects] at h
  | cons c earlier ih =>
    by_cases hc : c.name = C
    · exact ⟨c, List.mem_cons_self _ _, hc⟩
    · unfold baseSubobjects at h
      rw [if_neg hc] at h
      obtain ⟨cd, hcd, hn⟩ := ih h
      exact ⟨cd, List.mem_cons_of_mem _ hcd, hn⟩

/-- A base class subobject of the subobject `s` is named by a proper extension
of the path `s`, or by a path that starts at a virtual base; such a path is
longer than one class only if that virtual base has a definition. -/
theorem shape_of_mem_baseSubobjects (P : ClassTable) (C : String) (s x : Subobject)
    (h : x ∈ baseSubobjects P C s) :
    (∃ p, p ≠ [] ∧ x = s ++ p) ∨
      ∃ V p, x = V :: p ∧ (p = [] ∨ ∃ cd ∈ P, cd.name = V) := by
  induction P generalizing C s with
  | nil => simp [baseSubobjects] at h
  | cons c earlier ih =>
    unfold baseSubobjects at h
    by_cases hc : c.name = C
    · rw [if_pos hc, List.mem_flatMap] at h
      obtain ⟨b, _, hx⟩ := h
      rw [List.mem_cons] at hx
      by_cases hv : b.isVirtual = true
      · have hsb : subobjectOfBase s b = [b.name] := by simp [subobjectOfBase, hv]
        rw [hsb] at hx
        rcases hx with rfl | hx
        · exact Or.inr ⟨b.name, [], rfl, Or.inl rfl⟩
        · obtain ⟨cd, hcd, hn⟩ := defined_of_mem_baseSubobjects earlier b.name _ x hx
          rcases ih _ _ hx with ⟨p, _, rfl⟩ | ⟨V, p, rfl, hor⟩
          · exact Or.inr ⟨b.name, p, rfl, Or.inr ⟨cd, List.mem_cons_of_mem _ hcd, hn⟩⟩
          · refine Or.inr ⟨V, p, rfl, ?_⟩
            rcases hor with h1 | ⟨cd', hcd', hn'⟩
            · exact Or.inl h1
            · exact Or.inr ⟨cd', List.mem_cons_of_mem _ hcd', hn'⟩
      · have hsb : subobjectOfBase s b = s ++ [b.name] := by simp [subobjectOfBase, hv]
        rw [hsb] at hx
        rcases hx with rfl | hx
        · exact Or.inl ⟨[b.name], by simp, rfl⟩
        · rcases ih _ _ hx with ⟨p, _, rfl⟩ | ⟨V, p, rfl, hor⟩
          · exact Or.inl ⟨b.name :: p, by simp, by simp⟩
          · refine Or.inr ⟨V, p, rfl, ?_⟩
            rcases hor with h1 | ⟨cd', hcd', hn'⟩
            · exact Or.inl h1
            · exact Or.inr ⟨cd', List.mem_cons_of_mem _ hcd', hn'⟩
    · rw [if_neg hc] at h
      rcases ih _ _ h with h1 | ⟨V, p, rfl, hor⟩
      · exact Or.inl h1
      · refine Or.inr ⟨V, p, rfl, ?_⟩
        rcases hor with h1 | ⟨cd', hcd', hn'⟩
        · exact Or.inl h1
        · exact Or.inr ⟨cd', List.mem_cons_of_mem _ hcd', hn'⟩

/-- Two different direct non-virtual bases of a newly defined class `n` give
subobjects neither of which is a base class subobject of the other. -/
theorem not_isBaseSubobject_of_siblings (P : ClassTable) (n B₁ B₂ : String)
    (hfresh : ∀ cd ∈ P, cd.name ≠ n) :
    isBaseSubobject P [n, B₂] [n, B₁] = false := by
  cases hb : isBaseSubobject P [n, B₂] [n, B₁]
  · rfl
  · exfalso
    simp only [isBaseSubobject, List.getLast?, List.getLast_cons_cons, List.getLast_singleton,
      List.contains_iff_exists_mem_beq] at hb
    obtain ⟨x, hx, hxe⟩ := hb
    have hxe' : [n, B₂] = x := by simpa using hxe
    subst hxe'
    rcases shape_of_mem_baseSubobjects P B₁ [n, B₁] _ hx with ⟨p, hp, heq⟩ | ⟨V, p, heq, hor⟩
    · have hlen := congrArg List.length heq
      cases p with
      | nil => exact hp rfl
      | cons q qs => simp at hlen
    · simp only [List.cons.injEq] at heq
      obtain ⟨hV, hp⟩ := heq
      rcases hor with h1 | ⟨cd, hcd, hn⟩
      · rw [h1] at hp
        cases hp
      · exact hfresh cd hcd (hn.trans hV.symm)

/-- A newly defined class in whose scope `f` has no declaration and which has
two different direct non-virtual bases, in the scope of each of which `f` is
declared, has an ambiguous lookup of `f`. -/
theorem lookup_ambiguous_of_two_bases (earlier : ClassTable) (n : String)
    (members : List MemberDecl) (B₁ B₂ : String) (a₁ a₂ : Access) (cd₁ cd₂ : ClassDef)
    (f : String)
    (hfresh : ∀ cd ∈ earlier, cd.name ≠ n)
    (hown : (ClassDef.mk n [BaseSpecifier.mk B₁ a₁ false, BaseSpecifier.mk B₂ a₂ false]
      members).declarationsOf f = [])
    (hdef₁ : classDef? earlier B₁ = some cd₁) (hdecl₁ : cd₁.declares f)
    (hdef₂ : classDef? earlier B₂ = some cd₂) (hdecl₂ : cd₂.declares f)
    (hne : B₁ ≠ B₂) :
    lookup (ClassDef.mk n [BaseSpecifier.mk B₁ a₁ false, BaseSpecifier.mk B₂ a₂ false] members
        :: earlier) f n = .invalid [[n, B₁], [n, B₂]] := by
  have hnonempty : ∀ cd : ClassDef, cd.declares f → (cd.declarationsOf f).isEmpty = false := by
    intro cd hcd
    cases hf : (cd.declarationsOf f).isEmpty
    · rfl
    · rw [List.isEmpty_iff, declarationsOf_eq_nil_iff] at hf
      exact absurd hcd hf
  have hfilter : ((ClassDef.mk n [BaseSpecifier.mk B₁ a₁ false, BaseSpecifier.mk B₂ a₂ false]
      members).declarationsOf f).isEmpty = true := by
    rw [hown]
    rfl
  have h12 : isBaseSubobject earlier [n, B₂] [n, B₁] = false :=
    not_isBaseSubobject_of_siblings earlier n B₁ B₂ hfresh
  have h21 : isBaseSubobject earlier [n, B₁] [n, B₂] = false :=
    not_isBaseSubobject_of_siblings earlier n B₂ B₁ hfresh
  unfold lookup lookupSet
  simp only [if_true]
  rw [if_pos hfilter]
  simp only [List.foldl_cons, List.foldl_nil, subobjectOfBase, Bool.false_eq_true, if_false,
    List.singleton_append]
  rw [lookupSet_of_own f earlier B₁ [n, B₁] cd₁ hdef₁ (hnonempty cd₁ hdecl₁),
    lookupSet_of_own f earlier B₂ [n, B₂] cd₂ hdef₂ (hnonempty cd₂ hdecl₂)]
  simp [mergeLookup, LookupSet.isEmpty, LookupSet.subobjects, allBaseSubobjects, h12, h21, hne]

/-- A class whose own name is `f` and which has no member named `f` has no
`&C::f`: the name denotes the class itself. -/
theorem addressOfMember_of_injected_class_name (P : ClassTable) (cd : ClassDef) (c v : Bool)
    (f : String) (hname : simpleName cd.name = f) (hown : ∀ m ∈ cd.members, m.name ≠ f) :
    addressOfMember (cd :: P) (.class_ cd.name c v) f = none := by
  have hfilter : cd.members.filter (fun m => m.name == f) = [] := by
    rw [List.filter_eq_nil_iff]
    intro m hm hmf
    exact hown m hm (by simpa using hmf)
  have hds : cd.declarationsOf f =
      [MemberDecl.mk f MemberKind.typeName (CppType.class_ cd.name false false) Access.pub] := by
    unfold ClassDef.declarationsOf
    rw [hfilter]
    simp [hname]
  have hl : lookup (cd :: P) f cd.name = .found cd.name (cd.declarationsOf f) [[cd.name]] :=
    lookupSet_of_own f (cd :: P) cd.name [cd.name] cd (by simp [classDef?])
      (by rw [hds]; rfl)
  rw [hds] at hl
  simp [addressOfMember, hl, addressOfDecl]

/-- C15. When the name `forward` is not uniquely addressable in a class `C`,
`has_forward<C>::value` is false: when lookup finds two or more declarations
of `forward` that are all methods (overloads), when it finds one member
function template, and when it is ambiguous because `forward` is found in
different base classes. The last is the case for every newly defined class
`n` that has no member named `forward` and has two different direct
non-virtual bases in the scope of each of which `forward` is declared. -/
theorem has_forward_false_when_not_uniquely_addressable (P : ClassTable) (C : String)
    (c v : Bool) :
    (∀ owner ds subs, lookup P "forward" C = .found owner ds subs → 2 ≤ ds.length →
        (∀ m ∈ ds, m.isMethod = true) → has_forward P (.class_ C c v) = some false) ∧
      (∀ owner m subs, lookup P "forward" C = .found owner [m] subs →
        m.kind = .functionTemplate → has_forward P (.class_ C c v) = some false) ∧
      (∀ subs, lookup P "forward" C = .invalid subs →
        has_forward P (.class_ C c v) = some false) ∧
      (∀ (members : List MemberDecl) (B₁ B₂ : String) (a₁ a₂ : Access) (cd₁ cd₂ : ClassDef),
        (∀ cd ∈ P, cd.name ≠ C) → (∀ m ∈ members, m.name ≠ "forward") →
        classDef? P B₁ = some cd₁ → cd₁.declares "forward" →
        classDef? P B₂ = some cd₂ → cd₂.declares "forward" → B₁ ≠ B₂ →
        has_forward
          (ClassDef.mk C [BaseSpecifier.mk B₁ a₁ false, BaseSpecifier.mk B₂ a₂ false] members
            :: P) (.class_ C c v) = some false) := by
  have hinvalid : ∀ (Q : ClassTable) subs, lookup Q "forward" C = .invalid subs →
      has_forward Q (.class_ C c v) = some false := by
    intro Q subs hl
    rw [has_forward_eq]
    simp [addressOfMember, hl]
  refine ⟨?_, ?_, hinvalid P, ?_⟩
  · intro owner ds subs hl hlen _
    rw [has_forward_eq]
    match ds, hlen with
    | [], h => simp at h
    | [_], h => simp at h
    | _ :: _ :: _, _ => simp [addressOfMember, hl]
  · intro owner m subs hl hk
    rw [has_forward_eq]
    simp [addressOfMember, hl, addressOfDecl, hk]
  · intro members B₁ B₂ a₁ a₂ cd₁ cd₂ hfresh hown hdef₁ hdecl₁ hdef₂ hdecl₂ hne
    by_cases hname : simpleName C = "forward"
    · rw [has_forward_eq]
      have hnone := addressOfMember_of_injected_class_name P
        (ClassDef.mk C [BaseSpecifier.mk B₁ a₁ false, BaseSpecifier.mk B₂ a₂ false] members)
        c v "forward" hname hown
      rw [hnone]
      rfl
    · have hnil : (ClassDef.mk C [BaseSpecifier.mk B₁ a₁ false, BaseSpecifier.mk B₂ a₂ false]
          members).declarationsOf "forward" = [] := by
        rw [declarationsOf_eq_nil_iff]
        unfold ClassDef.ownMemberNames
        rw [List.mem_cons, not_or]
        refine ⟨fun h => hname h.symm, ?_⟩
        intro hm
        rw [List.mem_map] at hm
        obtain ⟨m, hmem, hmf⟩ := hm
        exact hown m hmem hmf
      exact hinvalid _ _
        (lookup_ambiguous_of_two_bases P C members B₁ B₂ a₁ a₂ cd₁ cd₂ "forward" hfresh hnil
          hdef₁ hdecl₁ hdef₂ hdecl₂ hne)

/-- C15, witness: `Overloaded` with two overloads of `forward`, `Templated`
with a member function template `forward`, and `Both` with `forward` in the
two bases `Left` and `Right` are not detected, although the first two have a
method `forward`; nor is a new `struct Pair : Left, Right`. -/
theorem has_forward_false_for_overloads_template_and_two_bases_witness :
    (has_forward zoo (classType "Overloaded") = some false ∧
        hasMethod zoo (classType "Overloaded") "forward" = true) ∧
      (has_forward ambiguousZoo (classType "Templated") = some false ∧
        hasMethod ambiguousZoo (classType "Templated") "forward" = true) ∧
      has_forward ambiguousZoo (classType "Both") = some false ∧
      has_forward
        (ClassDef.mk "Pair"
          [BaseSpecifier.mk "Left" .pub false, BaseSpecifier.mk "Right" .pub false] []
          :: ambiguousZoo) (classType "Pair") = some false :=
  ⟨⟨(has_forward_false_when_not_uniquely_addressable zoo "Overloaded" false false).1
        "Overloaded"
        [MemberDecl.mk "forward" (.function false) tensorFn .pub,
          MemberDecl.mk "forward" (.function false)
            (.function (classType "Tensor") [classType "Tensor", classType "Tensor"]) .pub]
        [["Overloaded"]] rfl (by decide)
        (by
          intro m hm
          simp only [List.mem_cons, List.mem_singleton, List.not_mem_nil, or_false] at hm
          rcases hm with rfl | rfl <;> rfl),
      by decide⟩,
    ⟨(has_forward_false_when_not_uniquely_addressable ambiguousZoo "Templated" false false).2.1
        "Templated" (MemberDecl.mk "forward" .functionTemplate voidFn .pub)
        [["Templated"]] rfl rfl,
      by decide⟩,
    (has_forward_false_when_not_uniquely_addressable ambiguousZoo "Both" false false).2.2.1
      [["Both", "Left"], ["Both", "Right"]] rfl,
    (has_forward_false_when_not_uniquely_addressable ambiguousZoo "Pair" false false).2.2.2
      [] "Left" "Right" .pub .pub
      (ClassDef.mk "Left" [] [MemberDecl.mk "forward" (.function false) voidFn .pub])
      (ClassDef.mk "Right" [] [MemberDecl.mk "forward" (.function false) voidFn .pub])
      (by decide) (by intro m hm; cases hm) rfl
      (by unfold ClassDef.declares; decide) rfl
      (by unfold ClassDef.declares; decide) (by decide)⟩

end torch.detail
